import Mathlib

/-!
Verification development for the py-aspio mapping layer.

This file gives a shallow embedding, in Lean 4, of the parts of the
py-aspio source needed to check the repository's specification claims:

* the fact serializer of `StreamAccumulator` (`src/aspio/program.py`)
  and the answer-set wire parser `parse_answer_set`
  (`AnswerSetParser` in `src/aspio/parser.py`);
* the input fact-generation engine (`src/aspio/input.py`);
* the output result mapper (`src/aspio/output.py`): the
  `OutputResult.get_object` memo state machine, `LocalContext`,
  and `Expr.evaluate` for constants, references, variables, objects
  and the three collection expressions;
* the subprocess shutdown classifier `DlvhexLineReader.__close`
  (`src/aspio/solver/dlvhex2.py`).

Python strings are `String`, Python lists are `List`, Python dicts are
association lists in insertion order (CPython dicts preserve insertion
order, and the code never relies on hashing beyond key lookup).
Exceptions are modelled with `Except`; where Python mutates state that
survives a raised exception, functions return the error together with
the mutated state.
-/

namespace Aspio

/-! ## Wire syntax: serializer (`StreamAccumulator`, `asp.quote`) -/

/-- Argument values handed to `StreamAccumulator.add_fact`: the claims
only concern integer and string arguments (`numbers.Integral` vs
everything else in `arg_str`). -/
inductive ArgVal where
  | int (i : Int)
  | str (s : String)
deriving DecidableEq, Repr

/-- First `str.replace` in `asp.quote`: double every backslash. -/
def replaceBackslash : List Char → List Char
  | [] => []
  | c :: rest =>
    (if c = '\\' then ['\\', '\\'] else [c]) ++ replaceBackslash rest

/-- Second `str.replace` in `asp.quote`: prefix every double quote with
a backslash. -/
def replaceQuote : List Char → List Char
  | [] => []
  | c :: rest =>
    (if c = '"' then ['\\', '"'] else [c]) ++ replaceQuote rest

/-- Embeds `asp.quote`: enclose in double quotes, escaping contained
quotes and backslashes with a backslash (two successive `str.replace`
calls in the source). -/
def quote (s : String) : String :=
  ⟨'"' :: replaceQuote (replaceBackslash s.data) ++ ['"']⟩

/-- Embeds `StreamAccumulator.arg_str`: integers are written unquoted
(`str(arg)`), everything else is quoted unconditionally. -/
def arg_str : ArgVal → String
  | .int i => toString i
  | .str s => quote s

/-- Comma-joined argument list, as written by the loop in
`StreamAccumulator.add_fact` (a comma before every argument except the
first). -/
def args_str : List ArgVal → String
  | [] => ""
  | [a] => arg_str a
  | a :: rest => arg_str a ++ "," ++ args_str rest

/-- Embeds the text written by `StreamAccumulator.add_fact` up to and
excluding the terminating `').\n'` tail: `predicate(arg1,...,argN)`. -/
def serialize_fact (predicate : String) (args : List ArgVal) : String :=
  predicate ++ "(" ++ args_str args ++ ")"

/-- Embeds the full line written by `StreamAccumulator.add_fact`:
`predicate(arg1,...,argN).` followed by a newline. -/
def add_fact_line (predicate : String) (args : List ArgVal) : String :=
  serialize_fact predicate args ++ ".\n"

/-! ## Wire syntax: answer-set line parser (`AnswerSetParser`)

The pyparsing grammar in `AnswerSetParser` is:
`answer_set := '{' [fact (',' fact)*] '}'` with
`fact := predicate_name ['(' arg (',' arg)* ')']` and
`arg := Word(nums) | QuotedString('"', escChar='\\') | Word(a-z, alnum+'_')`,
whitespace (space, newline, tab, carriage return) skipped between
tokens.  All constants are returned as plain strings (see the comment
in the source: "we always return constants as strings"). -/

/-- Whitespace characters pyparsing skips between tokens
(`DEFAULT_WHITESPACE_CHARS = ' \n\t\r'`). -/
def isWs (c : Char) : Bool :=
  c = ' ' || c = '\n' || c = '\t' || c = '\r'

def skipWs (cs : List Char) : List Char :=
  cs.dropWhile isWs

def isLowerAZ (c : Char) : Bool :=
  'a' ≤ c && c ≤ 'z'

def isUpperAZ (c : Char) : Bool :=
  'A' ≤ c && c ≤ 'Z'

def isDigit09 (c : Char) : Bool :=
  '0' ≤ c && c ≤ '9'

/-- Characters allowed in the body of `Word(alphas_lowercase, alphanums + '_')`
and of `predicate_name`. -/
def isWordBody (c : Char) : Bool :=
  isLowerAZ c || isUpperAZ c || isDigit09 c || c = '_'

/-- Parse a pyparsing `Word(initChars, bodyChars)` token: one mandatory
initial character followed by a maximal run of body characters. -/
def parseWord (init : Char → Bool) (body : Char → Bool) (cs : List Char) :
    Option (List Char × List Char) :=
  match cs with
  | [] => none
  | c :: rest =>
    if init c then
      some (c :: rest.takeWhile body, rest.dropWhile body)
    else none

/-- Parse `predicate_name := Optional('-') + Word(a-z, alnum + '_')`,
joined to a single string by the parse action. -/
def parsePredicateName (cs : List Char) : Option (List Char × List Char) :=
  match skipWs cs with
  | [] => none
  | c :: rest =>
    if c = '-' then
      match parseWord isLowerAZ isWordBody (skipWs rest) with
      | some (w, rest') => some ('-' :: w, rest')
      | none => none
    else parseWord isLowerAZ isWordBody (c :: rest)

/-- Content scanner of `QuotedString('"', escChar='\\')` (non-multiline):
characters up to the first unescaped quote; a backslash escapes any
character except a bare newline; an unescaped newline or carriage
return fails the match.  The returned content has each escape `\c`
replaced by `c` (pyparsing's unquote step). -/
def quotedContentAux : Bool → List Char → Option (List Char × List Char)
  | _, [] => none
  | true, c :: rest =>
    if c = '\n' then none
    else
      match quotedContentAux false rest with
      | some (s, r) => some (c :: s, r)
      | none => none
  | false, c :: rest =>
    if c = '"' then some ([], rest)
    else if c = '\\' then quotedContentAux true rest
    else if c = '\n' ∨ c = '\r' then none
    else
      match quotedContentAux false rest with
      | some (s, r) => some (c :: s, r)
      | none => none

def quotedContent (cs : List Char) : Option (List Char × List Char) :=
  quotedContentAux false cs

/-- Parse one `arg := str_integer | quoted_string | constant_symbol`
(pyparsing `MatchFirst`; the three alternatives have disjoint first
characters).  The integer alternative returns the digit characters as
a string, not a number. -/
def parseArg (cs : List Char) : Option (String × List Char) :=
  match skipWs cs with
  | [] => none
  | c :: rest =>
    if isDigit09 c then
      some (⟨c :: rest.takeWhile isDigit09⟩, rest.dropWhile isDigit09)
    else if c = '"' then
      match quotedContent rest with
      | some (s, r) => some (⟨s⟩, r)
      | none => none
    else
      match parseWord isLowerAZ isWordBody (c :: rest) with
      | some (w, rest') => some (⟨w⟩, rest')
      | none => none

/-- Parse `ZeroOrMore(comma + arg)`: repeat the unit `comma + arg`
until it fails, backtracking the comma of a failed unit (pyparsing
`ZeroOrMore` semantics); fuel bounds the recursion by the input
length. -/
def parseMoreArgs (fuel : Nat) (cs : List Char) : List String × List Char :=
  match fuel with
  | 0 => ([], cs)
  | fuel + 1 =>
    match skipWs cs with
    | [] => ([], cs)
    | c :: rest =>
      if c = ',' then
        match parseArg rest with
        | some (a, rest') =>
          let (as, rest2) := parseMoreArgs fuel rest'
          (a :: as, rest2)
        | none => ([], cs)
      else ([], cs)

/-- Parse the optional parenthesised argument list of a fact.  As in
pyparsing, if the group `'(' arg (',' arg)* ')'` fails anywhere the
`Optional` succeeds with no arguments and consumes nothing. -/
def parseArgList (cs : List Char) : List String × List Char :=
  let attempt : Option (List String × List Char) :=
    match skipWs cs with
    | [] => none
    | c :: rest =>
      if c = '(' then
        match parseArg rest with
        | some (a, rest') =>
          let (as, rest2) := parseMoreArgs rest'.length rest'
          match skipWs rest2 with
          | [] => none
          | c2 :: rest3 => if c2 = ')' then some (a :: as, rest3) else none
        | none => none
      else none
  match attempt with
  | some r => r
  | none => ([], cs)

/-- Parse `fact := predicate_name [ '(' arg (',' arg)* ')' ]`,
returning the `(pred, args)` pair built by the parse action. -/
def parseFact (cs : List Char) : Option ((String × List String) × List Char) :=
  match parsePredicateName cs with
  | some (p, rest) =>
    let (args, rest') := parseArgList rest
    some ((⟨p⟩, args), rest')
  | none => none

/-- Parse `ZeroOrMore(comma + fact)`, with pyparsing backtracking of a
failed `comma + fact` unit. -/
def parseMoreFacts (fuel : Nat) (cs : List Char) :
    List (String × List String) × List Char :=
  match fuel with
  | 0 => ([], cs)
  | fuel + 1 =>
    match skipWs cs with
    | [] => ([], cs)
    | c :: rest =>
      if c = ',' then
        match parseFact rest with
        | some (f, rest') =>
          let (fs, rest2) := parseMoreFacts fuel rest'
          (f :: fs, rest2)
        | none => ([], cs)
      else ([], cs)

/-- Raw answer set: mapping from predicate name to the list of argument
tuples, in first-appearance order (`asp.RawAnswerSet`; the source keeps
a `dict` of lists and appends). -/
def RawAnswerSet := List (String × List (List String))
deriving DecidableEq, Repr

/-- Look up the tuple list for a predicate; absent predicates behave as
the empty collection (`dict.get(pred, ())` in `get_captured_values`). -/
def RawAnswerSet.tuplesOf (a : RawAnswerSet) (pred : String) :
    List (List String) :=
  match a with
  | [] => []
  | (p, ts) :: rest => if p = pred then ts else tuplesOf rest pred

/-- Append one tuple under a predicate, preserving dict insertion order
(first occurrence creates the entry, later ones append to it). -/
def RawAnswerSet.addFact (a : RawAnswerSet) (pred : String)
    (args : List String) : RawAnswerSet :=
  match a with
  | [] => [(pred, [args])]
  | (p, ts) :: rest =>
    if p = pred then (p, ts ++ [args]) :: rest
    else (p, ts) :: addFact rest pred args

/-- The `collect_facts` parse action: group the parsed facts by
predicate into a `RawAnswerSet`. -/
def collect_facts (facts : List (String × List String)) : RawAnswerSet :=
  facts.foldl (fun d (f : String × List String) => d.addFact f.1 f.2) []

/-- Opening brace character (written by code point to keep braces out
of character literals). -/
def openBrace : Char := Char.ofNat 123

/-- Closing brace character. -/
def closeBrace : Char := Char.ofNat 125

/-- Parse a whole answer-set line, an optional comma-separated fact
list between braces, with `parseAll=True` (trailing whitespace allowed,
nothing else may follow). -/
def parseAnswerSetChars (cs : List Char) : Option RawAnswerSet :=
  match skipWs cs with
  | [] => none
  | c :: rest =>
    if c = openBrace then
      let inner : List (String × List String) × List Char :=
        match parseFact rest with
        | some (f, rest') =>
          let (fs, rest2) := parseMoreFacts rest'.length rest'
          (f :: fs, rest2)
        | none => ([], rest)
      match skipWs inner.2 with
      | [] => none
      | c2 :: rest3 =>
        if c2 = closeBrace then
          if skipWs rest3 = [] then some (collect_facts inner.1) else none
        else none
    else none

/-- Embeds `parse_answer_set`: parse one raw answer-set wire line.
`none` models a raised `ParseException`. -/
def parse_answer_set (s : String) : Option RawAnswerSet :=
  parseAnswerSetChars s.data

/-- Wrap a serialized fact (without its terminating period) in the
braces of an answer-set wire line, so it can be handed back to
`parse_answer_set`. -/
def inBraces (s : String) : String :=
  "\x7b" ++ s ++ "\x7d"

/-! ## Round-trip: domains and helper lemmas -/

/-- Wire form of an argument after one parse of its serialization: the
parser represents every constant as a plain string, so an integer comes
back as its decimal string and a quoted string comes back unquoted. -/
def wire_str : ArgVal → String
  | .int i => toString i
  | .str s => s

/-- The claim C1 round-trip as stated: serializing the fact and
re-parsing the line as a one-fact wire answer set yields the original
predicate and argument tuple (argument values compared as the parser
returns them, i.e. as Python string constants). -/
def RoundTripsToOriginal (predicate : String) (args : List ArgVal) : Prop :=
  ∃ ts : List String,
    parse_answer_set (inBraces (serialize_fact predicate args)) =
      some [(predicate, [ts])] ∧ ts.map ArgVal.str = args

/-- Serializable strings for the round trip: anything without a bare
newline or carriage return (those cannot appear inside a single-line
quoted wire constant). -/
def strOK (s : String) : Bool :=
  s.data.all fun c => !(c = '\n') && !(c = '\r')

/-- Round-trippable arguments: nonnegative integers and
newline/carriage-return-free strings. -/
def argOK : ArgVal → Bool
  | .int i => decide (0 ≤ i)
  | .str s => strOK s

/-- Character lists accepted by `Word(alphas_lowercase, alphanums + '_')`:
a lowercase letter followed by word characters. -/
def symbolChars : List Char → Bool
  | [] => false
  | c :: cs => isLowerAZ c && cs.all isWordBody

/-- Valid serialized predicate names: an optional leading `-` followed
by a symbol word, exactly what `predicate_name` accepts. -/
def validPredChars : List Char → Bool
  | [] => false
  | c :: cs => if c = '-' then symbolChars cs else symbolChars (c :: cs)

def validPredName (p : String) : Bool :=
  validPredChars p.data

theorem skipWs_cons_of_not_ws {c : Char} (h : isWs c = false) (l : List Char) :
    skipWs (c :: l) = c :: l := by
  simp [skipWs, List.dropWhile, h]

theorem takeWhile_append_of_all {p : Char → Bool} :
    ∀ (xs ys : List Char), (∀ c ∈ xs, p c = true) →
      (∀ y ∈ ys.head?, p y = false) →
      (xs ++ ys).takeWhile p = xs ∧ (xs ++ ys).dropWhile p = ys := by
  intro xs
  induction xs with
  | nil =>
    intro ys _ hy
    cases ys with
    | nil => simp
    | cons y ys =>
      have : p y = false := hy y (by simp)
      simp [List.takeWhile, List.dropWhile, this]
  | cons x xs ih =>
    intro ys hx hy
    have hpx : p x = true := hx x (by simp)
    have := ih ys (fun c hc => hx c (by simp [hc])) hy
    simp [List.takeWhile, List.dropWhile, hpx, this.1, this.2]

theorem parseWord_append {init body : Char → Bool} {c : Char} {w rest : List Char}
    (hc : init c = true) (hw : ∀ x ∈ w, body x = true)
    (hrest : ∀ y ∈ rest.head?, body y = false) :
    parseWord init body (c :: (w ++ rest)) = some (c :: w, rest) := by
  have h := takeWhile_append_of_all w rest hw hrest
  simp [parseWord, hc, h.1, h.2]

/-- Characters of a symbol word are never whitespace. -/
theorem not_ws_of_lower {c : Char} (h : isLowerAZ c = true) : isWs c = false := by
  rcases Bool.eq_false_or_eq_true (isWs c) with ht | hf
  on_goal 2 => exact hf
  · exfalso
    have hc : ((c = ' ' ∨ c = '\n') ∨ c = '\t') ∨ c = '\r' := by
      simpa [isWs, decide_eq_true_eq] using ht
    rcases hc with ((rfl | rfl) | rfl) | rfl <;> exact absurd h (by decide)

/-- Fused form of the two escape replacements of `asp.quote`. -/
def escChars : List Char → List Char
  | [] => []
  | c :: rest =>
    (if c = '\\' then ['\\', '\\']
     else if c = '"' then ['\\', '"']
     else [c]) ++ escChars rest

theorem replaceQuote_replaceBackslash (l : List Char) :
    replaceQuote (replaceBackslash l) = escChars l := by
  induction l with
  | nil => rfl
  | cons c rest ih =>
    by_cases hb : c = '\\'
    · subst hb
      simp [replaceBackslash, replaceQuote, escChars, ih]
    · by_cases hq : c = '"'
      · subst hq
        simp [replaceBackslash, replaceQuote, escChars, ih]
      · simp [replaceBackslash, replaceQuote, escChars, hb, hq, ih]

theorem quote_data (s : String) :
    (quote s).data = '"' :: escChars s.data ++ ['"'] := by
  simp [quote, replaceQuote_replaceBackslash]

theorem quotedContent_escChars :
    ∀ (l rest : List Char),
      (∀ c ∈ l, (!(c = '\n') && !(c = '\r')) = true) →
      quotedContent (escChars l ++ '"' :: rest) = some (l, rest) := by
  intro l
  induction l with
  | nil => intro rest _; rfl
  | cons c cs ih =>
    intro rest h
    have hc : (!(c = '\n') && !(c = '\r')) = true := h c (by simp)
    have hcs : quotedContentAux false (escChars cs ++ '"' :: rest) = some (cs, rest) :=
      ih rest (fun x hx => h x (by simp [hx]))
    have hn : ¬ (c = '\n') := by
      intro hcn; rw [hcn] at hc; simp at hc
    have hr : ¬ (c = '\r') := by
      intro hcr; rw [hcr] at hc; simp at hc
    show quotedContentAux false (escChars (c :: cs) ++ '"' :: rest) = some (c :: cs, rest)
    by_cases hb : c = '\\'
    · subst hb
      have hesc : escChars ('\\' :: cs) ++ '"' :: rest =
          '\\' :: '\\' :: (escChars cs ++ '"' :: rest) := by simp [escChars]
      rw [hesc]
      show (match quotedContentAux false (escChars cs ++ '"' :: rest) with
            | some (s, r) => some ('\\' :: s, r)
            | none => none) = some ('\\' :: cs, rest)
      rw [hcs]
    · by_cases hq : c = '"'
      · subst hq
        have hesc : escChars ('"' :: cs) ++ '"' :: rest =
            '\\' :: '"' :: (escChars cs ++ '"' :: rest) := by simp [escChars]
        rw [hesc]
        show (match quotedContentAux false (escChars cs ++ '"' :: rest) with
              | some (s, r) => some ('"' :: s, r)
              | none => none) = some ('"' :: cs, rest)
        rw [hcs]
      · have hesc : escChars (c :: cs) ++ '"' :: rest =
            c :: (escChars cs ++ '"' :: rest) := by simp [escChars, hb, hq]
        rw [hesc]
        have hor : ¬ (c = '\n' ∨ c = '\r') := by
          intro hor; rcases hor with h1 | h1
          · exact hn h1
          · exact hr h1
        simp only [quotedContentAux]
        rw [if_neg hq, if_neg hb, if_neg hor, hcs]

theorem toDigitsCore_all_digit :
    ∀ (fuel n : Nat) (ds : List Char),
      (∀ c ∈ ds, isDigit09 c = true) →
      ∀ c ∈ Nat.toDigitsCore 10 fuel n ds, isDigit09 c = true := by
  intro fuel
  induction fuel with
  | zero => intro n ds h c hc; exact h c hc
  | succ f ih =>
    intro n ds h c hc
    have hd : isDigit09 (Nat.digitChar (n % 10)) = true := by
      have hlt : n % 10 < 10 := Nat.mod_lt _ (by norm_num)
      interval_cases h : (n % 10) <;> decide
    simp only [Nat.toDigitsCore] at hc
    split at hc
    · rcases List.mem_cons.mp hc with rfl | hmem
      · exact hd
      · exact h c hmem
    · exact ih (n / 10) (Nat.digitChar (n % 10) :: ds)
        (fun x hx => by
          rcases List.mem_cons.mp hx with rfl | hmem
          · exact hd
          · exact h x hmem) c hc

theorem toDigitsCore_ne_nil :
    ∀ (fuel n : Nat) (ds : List Char), ds ≠ [] →
      Nat.toDigitsCore 10 fuel n ds ≠ [] := by
  intro fuel
  induction fuel with
  | zero => intro n ds h; exact h
  | succ f ih =>
    intro n ds h
    simp only [Nat.toDigitsCore]
    split
    · simp
    · exact ih (n / 10) _ (by simp)

theorem toDigits_all_digit (n : Nat) :
    ∀ c ∈ Nat.toDigits 10 n, isDigit09 c = true := by
  intro c hc
  exact toDigitsCore_all_digit (n + 1) n [] (by simp) c hc

theorem toDigits_ne_nil (n : Nat) : Nat.toDigits 10 n ≠ [] := by
  show Nat.toDigitsCore 10 (n + 1) n [] ≠ []
  simp only [Nat.toDigitsCore]
  split
  · simp
  · exact toDigitsCore_ne_nil n (n / 10) _ (by simp)

theorem not_ws_of_digit {c : Char} (h : isDigit09 c = true) : isWs c = false := by
  rcases Bool.eq_false_or_eq_true (isWs c) with ht | hf
  on_goal 2 => exact hf
  exfalso
  have hc : ((c = ' ' ∨ c = '\n') ∨ c = '\t') ∨ c = '\r' := by
    simpa [isWs, decide_eq_true_eq] using ht
  rcases hc with ((rfl | rfl) | rfl) | rfl <;> exact absurd h (by decide)

/-- Parsing an argument token from the serialization of an integer
`n ≥ 0` followed by a non-digit yields the decimal string of `n`. -/
theorem parseArg_int (n : Nat) (rest : List Char)
    (hrest : ∀ y ∈ rest.head?, isDigit09 y = false) :
    parseArg ((toString (Int.ofNat n)).data ++ rest) =
      some (toString (Int.ofNat n), rest) := by
  have hdata : (toString (Int.ofNat n)).data = Nat.toDigits 10 n := rfl
  rw [hdata]
  obtain ⟨c, cs, hcons⟩ : ∃ c cs, Nat.toDigits 10 n = c :: cs := by
    cases htd : Nat.toDigits 10 n with
    | nil => exact absurd htd (toDigits_ne_nil n)
    | cons c cs => exact ⟨c, cs, rfl⟩
  rw [hcons]
  have hall : ∀ x ∈ c :: cs, isDigit09 x = true := by
    rw [← hcons]; exact toDigits_all_digit n
  have hc : isDigit09 c = true := hall c (by simp)
  have hcs : ∀ x ∈ cs, isDigit09 x = true := fun x hx => hall x (by simp [hx])
  have hsplit := takeWhile_append_of_all (p := isDigit09) cs rest hcs hrest
  have hstr : String.mk (c :: cs) = toString (Int.ofNat n) := by
    conv_rhs => rw [show toString (Int.ofNat n) = String.mk (toString (Int.ofNat n)).data from by
      cases toString (Int.ofNat n); rfl]
    rw [hdata, hcons]
  simp only [List.cons_append, parseArg, skipWs_cons_of_not_ws (not_ws_of_digit hc),
    hc, if_pos, hsplit.1, hsplit.2, hstr]

/-- Parsing an argument token from the serialization of a quoted string
yields back the original string. -/
theorem parseArg_quoted (s : String) (rest : List Char) (h : strOK s = true) :
    parseArg ((quote s).data ++ rest) = some (s, rest) := by
  rw [quote_data]
  have hq : quotedContent (escChars s.data ++ '"' :: rest) = some (s.data, rest) :=
    quotedContent_escChars s.data rest (by
      intro c hc
      exact List.all_eq_true.mp h c hc)
  have hmk : String.mk s.data = s := by cases s; rfl
  simp only [List.cons_append, List.append_assoc, List.singleton_append, parseArg,
    skipWs_cons_of_not_ws (show isWs '"' = false by decide)]
  simp only [List.nil_append, show isDigit09 '"' = false by decide, Bool.false_eq_true,
    if_false, if_true, reduceIte]
  rw [hq]

/-- Parsing an argument from any serialized `argOK` value yields its
wire string. -/
theorem parseArg_ok (a : ArgVal) (rest : List Char) (ha : argOK a = true)
    (hrest : ∀ y ∈ rest.head?, isDigit09 y = false) :
    parseArg ((arg_str a).data ++ rest) = some (wire_str a, rest) := by
  cases a with
  | int i =>
    have hge : 0 ≤ i := by simpa [argOK] using ha
    obtain ⟨n, rfl⟩ := Int.eq_ofNat_of_zero_le hge
    exact parseArg_int n rest hrest
  | str s =>
    have : strOK s = true := by simpa [argOK] using ha
    exact parseArg_quoted s rest this

theorem symbolChars_parts {c : Char} {cs : List Char}
    (h : symbolChars (c :: cs) = true) :
    isLowerAZ c = true ∧ ∀ x ∈ cs, isWordBody x = true := by
  have h2 : isLowerAZ c && cs.all isWordBody := by simpa [symbolChars] using h
  rcases Bool.and_eq_true_iff.mp h2 with ⟨h1, h3⟩
  exact ⟨h1, fun x hx => List.all_eq_true.mp h3 x hx⟩

/-- Parsing a predicate-name token from a valid serialized name
followed by a non-word character yields the name. -/
theorem parsePredicateName_chars (l rest : List Char)
    (hl : validPredChars l = true)
    (hrest : ∀ y ∈ rest.head?, isWordBody y = false) :
    parsePredicateName (l ++ rest) = some (l, rest) := by
  rcases l with _ | ⟨c, cs⟩
  · exact absurd hl (by simp [validPredChars])
  · by_cases hdash : c = '-'
    · subst hdash
      have hsym : symbolChars cs = true := by
        simpa [validPredChars] using hl
      rcases cs with _ | ⟨c2, cs2⟩
      · exact absurd hsym (by simp [symbolChars])
      · obtain ⟨h1, h2⟩ := symbolChars_parts hsym
        simp only [parsePredicateName, List.cons_append,
          skipWs_cons_of_not_ws (show isWs '-' = false by decide), if_pos rfl,
          skipWs_cons_of_not_ws (not_ws_of_lower h1)]
        rw [parseWord_append h1 h2 hrest]
        simp
    · have hsym : symbolChars (c :: cs) = true := by
        simpa [validPredChars, hdash] using hl
      obtain ⟨h1, h2⟩ := symbolChars_parts hsym
      simp only [parsePredicateName, List.cons_append,
        skipWs_cons_of_not_ws (not_ws_of_lower h1), if_neg hdash]
      rw [parseWord_append h1 h2 hrest]

/-- Character stream of the comma-prефixed tail of a serialized
argument list. -/
def argsTailChars : List ArgVal → List Char
  | [] => []
  | a :: rest => ',' :: (arg_str a).data ++ argsTailChars rest

theorem args_str_data (a : ArgVal) (args : List ArgVal) :
    (args_str (a :: args)).data = (arg_str a).data ++ argsTailChars args := by
  induction args generalizing a with
  | nil => simp [args_str, argsTailChars]
  | cons b bs ih =>
    show (args_str (a :: b :: bs)).data = _
    have : args_str (a :: b :: bs) = arg_str a ++ "," ++ args_str (b :: bs) := rfl
    rw [this]
    simp only [String.data_append, ih b, argsTailChars]
    simp

theorem arg_str_length_pos (a : ArgVal) : 1 ≤ (arg_str a).data.length := by
  cases a with
  | int i =>
    cases i with
    | ofNat n =>
      have h1 : (arg_str (ArgVal.int (Int.ofNat n))).data = Nat.toDigits 10 n := rfl
      rw [h1]
      have := toDigits_ne_nil n
      cases htd : Nat.toDigits 10 n with
      | nil => exact absurd htd this
      | cons c cs => simp [htd]
    | negSucc n =>
      have h1 : (arg_str (ArgVal.int (Int.negSucc n))).data =
          '-' :: Nat.toDigits 10 (n + 1) := rfl
      rw [h1]; simp
  | str s =>
    rw [show (arg_str (ArgVal.str s)).data = (quote s).data from rfl, quote_data]
    simp

theorem argsTailChars_length (args : List ArgVal) :
    args.length ≤ (argsTailChars args).length := by
  induction args with
  | nil => simp [argsTailChars]
  | cons a rest ih =>
    have := arg_str_length_pos a
    simp only [argsTailChars, List.length_cons, List.cons_append, List.length_append]
    omega

theorem parseMoreArgs_chain (args : List ArgVal) :
    ∀ (fuel : Nat) (rest : List Char),
      args.length ≤ fuel →
      (∀ a ∈ args, argOK a = true) →
      rest.head? = some ')' →
      parseMoreArgs fuel (argsTailChars args ++ rest) =
        (args.map wire_str, rest) := by
  induction args with
  | nil =>
    intro fuel rest _ _ hrest
    rcases hr : rest with _ | ⟨c, rest'⟩
    · rw [hr] at hrest; simp at hrest
    · rw [hr] at hrest
      have hc : c = ')' := by simpa using hrest
      subst hc
      cases fuel with
      | zero => simp [argsTailChars, parseMoreArgs]
      | succ f =>
        simp [argsTailChars, parseMoreArgs,
          skipWs_cons_of_not_ws (show isWs ')' = false by decide)]
  | cons a args ih =>
    intro fuel rest hfuel hok hrest
    cases fuel with
    | zero => simp at hfuel
    | succ f =>
      have hhead : ∀ y ∈ (argsTailChars args ++ rest).head?, isDigit09 y = false := by
        intro y hy
        cases args with
        | nil =>
          simp only [argsTailChars, List.nil_append] at hy
          rcases hr : rest with _ | ⟨c, rest'⟩
          · rw [hr] at hy; simp at hy
          · rw [hr] at hrest hy
            have hc : c = ')' := by
              have := hrest; simp only [List.head?] at this
              exact (Option.some_inj.mp this)
            subst hc
            have hyc : (')' : Char) = y := by simpa using hy
            rw [← hyc]; decide
        | cons b bs =>
          simp only [argsTailChars, List.cons_append, List.head?] at hy
          have hyc : (',' : Char) = y := by simpa using hy
          rw [← hyc]; decide
      have harg := parseArg_ok a (argsTailChars args ++ rest) (hok a (by simp)) hhead
      have hih := ih f rest (by simpa using hfuel)
        (fun x hx => hok x (by simp [hx])) hrest
      show parseMoreArgs (f + 1)
        (',' :: (arg_str a).data ++ argsTailChars args ++ rest) = _
      simp only [parseMoreArgs, List.cons_append,
        skipWs_cons_of_not_ws (show isWs ',' = false by decide), if_pos rfl]
      rw [List.append_assoc, harg]
      simp [hih]

/-- Parsing the parenthesised argument list of a serialized nonempty
argument tuple yields the wire strings of the arguments. -/
theorem parseArgList_chain (a : ArgVal) (args : List ArgVal) (rest : List Char)
    (hok : ∀ x ∈ a :: args, argOK x = true) :
    parseArgList ('(' :: ((arg_str a).data ++ (argsTailChars args ++ (')' :: rest)))) =
      ((a :: args).map wire_str, rest) := by
  have hhead : ∀ y ∈ (argsTailChars args ++ (')' :: rest)).head?, isDigit09 y = false := by
    intro y hy
    cases args with
    | nil =>
      simp only [argsTailChars, List.nil_append, List.head?] at hy
      have hyc : (')' : Char) = y := by simpa using hy
      rw [← hyc]; decide
    | cons b bs =>
      simp only [argsTailChars, List.cons_append, List.head?] at hy
      have hyc : (',' : Char) = y := by simpa using hy
      rw [← hyc]; decide
  have harg := parseArg_ok a (argsTailChars args ++ (')' :: rest)) (hok a (by simp)) hhead
  have hchain := parseMoreArgs_chain args
    (argsTailChars args ++ ')' :: rest).length (')' :: rest)
    (le_trans (argsTailChars_length args) (by simp))
    (fun x hx => hok x (by simp [hx])) (by simp)
  simp only [parseArgList,
    skipWs_cons_of_not_ws (show isWs '(' = false by decide), if_pos rfl]
  rw [harg]
  simp only [hchain, skipWs_cons_of_not_ws (show isWs ')' = false by decide)]
  simp

/-- Parsing a wire fact from a serialized fact followed by a non-word
character stream yields the predicate and the wire strings of the
arguments. -/
theorem parseFact_serialize (predicate : String) (args : List ArgVal)
    (rest : List Char)
    (hp : validPredName predicate = true)
    (hne : args ≠ [])
    (hok : ∀ a ∈ args, argOK a = true) :
    parseFact ((serialize_fact predicate args).data ++ rest) =
      some ((predicate, args.map wire_str), rest) := by
  rcases args with _ | ⟨a, args⟩
  · exact absurd rfl hne
  have hdata : (serialize_fact predicate (a :: args)).data =
      predicate.data ++ '(' :: ((arg_str a).data ++ argsTailChars args) ++ [')'] := by
    simp [serialize_fact, String.data_append, args_str_data]
  rw [hdata]
  have hpn := parsePredicateName_chars predicate.data
    ('(' :: ((arg_str a).data ++ argsTailChars args) ++ [')'] ++ rest)
    hp (by simp; decide)
  simp only [parseFact, List.append_assoc] at hpn ⊢
  rw [hpn]
  have hlist := parseArgList_chain a args rest hok
  simp only [List.cons_append, List.append_assoc, List.singleton_append,
    List.nil_append] at hlist ⊢
  rw [hlist]

theorem inBraces_data (s : String) :
    (inBraces s).data = openBrace :: (s.data ++ [closeBrace]) := by
  have h1 : ("\x7b" : String).data = [openBrace] := by decide
  have h2 : ("\x7d" : String).data = [closeBrace] := by decide
  simp [inBraces, String.data_append, h1, h2]
  exact ⟨by decide, by decide⟩

/-- An answer-set line holding exactly one fact parses to the singleton
raw answer set. -/
theorem parseAnswerSet_single_fact (factChars : List Char) (pred : String)
    (ts : List String)
    (h : parseFact (factChars ++ [closeBrace]) = some ((pred, ts), [closeBrace])) :
    parseAnswerSetChars (openBrace :: (factChars ++ [closeBrace])) =
      some [(pred, [ts])] := by
  simp only [parseAnswerSetChars,
    skipWs_cons_of_not_ws (show isWs openBrace = false by decide), if_pos rfl, h]
  have hmore : parseMoreFacts [closeBrace].length [closeBrace] = ([], [closeBrace]) := by
    simp [parseMoreFacts, skipWs_cons_of_not_ws (show isWs closeBrace = false by decide),
      show ¬ (closeBrace = ',') by decide]
  simp only [hmore, skipWs_cons_of_not_ws (show isWs closeBrace = false by decide)]
  simp [skipWs, collect_facts, RawAnswerSet.addFact]

theorem isWordBody_no_newline {c : Char} (h : isWordBody c = true) :
    (!(c = '\n') && !(c = '\r')) = true := by
  by_cases h1 : c = '\n'
  · subst h1; exact absurd h (by decide)
  · by_cases h2 : c = '\r'
    · subst h2; exact absurd h (by decide)
    · simp [h1, h2]

theorem lower_not_digit {c : Char} (h : isLowerAZ c = true) : isDigit09 c = false := by
  rcases Bool.eq_false_or_eq_true (isDigit09 c) with ht | hf
  on_goal 2 => exact hf
  exfalso
  have h1 : ('a' : Char) ≤ c := by
    rcases Bool.and_eq_true_iff.mp ((by simpa [isLowerAZ] using h :
      (decide ('a' ≤ c) && decide (c ≤ 'z')) = true)) with ⟨ha, _⟩
    exact of_decide_eq_true ha
  have h2 : c ≤ '9' := by
    rcases Bool.and_eq_true_iff.mp ((by simpa [isDigit09] using ht :
      (decide ('0' ≤ c) && decide (c ≤ '9')) = true)) with ⟨_, hb⟩
    exact of_decide_eq_true hb
  have : ('a' : Char) ≤ '9' := le_trans h1 h2
  exact absurd this (by decide)

theorem lower_ne_quote {c : Char} (h : isLowerAZ c = true) : ¬ (c = '"') := by
  intro hc; rw [hc] at h; exact absurd h (by decide)

/-- Parsing an argument token from a bare symbol followed by a
non-word character yields the symbol text (as a plain string, exactly
like a quoted constant of the same text). -/
theorem parseArg_symbol (w rest : List Char) (hw : symbolChars w = true)
    (hrest : ∀ y ∈ rest.head?, isWordBody y = false) :
    parseArg (w ++ rest) = some (String.mk w, rest) := by
  rcases w with _ | ⟨c, cs⟩
  · exact absurd hw (by simp [symbolChars])
  obtain ⟨h1, h2⟩ := symbolChars_parts hw
  simp only [List.cons_append, parseArg,
    skipWs_cons_of_not_ws (not_ws_of_lower h1), lower_not_digit h1,
    Bool.false_eq_true, if_false, if_neg (lower_ne_quote h1)]
  rw [parseWord_append h1 h2 hrest]

end Aspio

namespace Aspio

/-! ## Claim theorems: C1 and C3 -/

/-- Shared round-trip engine: serializing a fact with a valid predicate
name and a nonempty `argOK` argument tuple and re-parsing it as a
one-fact wire answer-set line yields the predicate and the wire strings
of the arguments. -/
theorem serialize_roundtrip (predicate : String) (args : List ArgVal)
    (hp : validPredName predicate = true)
    (hne : args ≠ [])
    (hok : ∀ a ∈ args, argOK a = true) :
    parse_answer_set (inBraces (serialize_fact predicate args)) =
      some [(predicate, [args.map wire_str])] := by
  show parseAnswerSetChars (inBraces (serialize_fact predicate args)).data = _
  rw [inBraces_data]
  exact parseAnswerSet_single_fact _ predicate (args.map wire_str)
    (parseFact_serialize predicate args [closeBrace] hp hne hok)

theorem strOK_of_symbolChars (s : String) (hs : symbolChars s.data = true) :
    strOK s = true := by
  rcases hd : s.data with _ | ⟨c, cs⟩
  · rw [hd] at hs; exact absurd hs (by simp [symbolChars])
  · rw [hd] at hs
    obtain ⟨h1, h2⟩ := symbolChars_parts hs
    unfold strOK
    rw [hd]
    refine List.all_eq_true.mpr ?_
    intro c' hc'
    rcases List.mem_cons.mp hc' with rfl | hmem
    · exact isWordBody_no_newline (by simp [isWordBody, h1])
    · exact isWordBody_no_newline (h2 c' hmem)

/-- Claim C1 is false as stated: the fact `p(5)` — an integer argument —
serializes via `StreamAccumulator.add_fact` to the line `p(5).` and
re-parses through `parse_answer_set` to the predicate `p` with the
argument tuple `("5")`, i.e. the *string* `"5"`, not the original
integer `5` (the answer-set parser returns every constant as a plain
string); the fact `p(-1)` does not re-parse at all, since the wire
grammar for arguments has no sign.  Both refute the claim that
re-parsing yields the original (predicate, argument-tuple). -/
theorem C1_counterexample :
    add_fact_line "p" [ArgVal.int 5] = "p(5).\n" ∧
    parse_answer_set (inBraces (serialize_fact "p" [ArgVal.int 5])) =
      some [("p", [["5"]])] ∧
    ¬ RoundTripsToOriginal "p" [ArgVal.int 5] ∧
    add_fact_line "p" [ArgVal.int (-1)] = "p(-1).\n" ∧
    parse_answer_set (inBraces (serialize_fact "p" [ArgVal.int (-1)])) = none := by
  refine ⟨rfl, rfl, ?_, rfl, rfl⟩
  rintro ⟨ts, hparse, hmap⟩
  have hcomp : parse_answer_set (inBraces (serialize_fact "p" [ArgVal.int 5])) =
      some [("p", [["5"]])] := rfl
  rw [hcomp] at hparse
  have hts : ["5"] = ts := by simpa using hparse
  rw [← hts] at hmap
  exact absurd hmap (by decide)

/-- Claim C1, amended: for a fact with a valid predicate name and a
nonempty argument tuple of nonnegative integers and newline-free
strings, serializing with `StreamAccumulator.add_fact` and re-parsing
the fact as a wire answer-set fact with `parse_answer_set` yields the
original predicate together with the *wire form* of the argument tuple:
each string argument comes back unchanged, while each integer comes
back as its decimal string (the parser returns all constants as
strings).  Negative integers and empty tuples do not round-trip (see
the counterexample). -/
theorem C1_roundtrip (predicate : String) (args : List ArgVal)
    (hp : validPredName predicate = true)
    (hne : args ≠ [])
    (hok : ∀ a ∈ args, argOK a = true) :
    parse_answer_set (inBraces (serialize_fact predicate args)) =
      some [(predicate, [args.map wire_str])] :=
  serialize_roundtrip predicate args hp hne hok

/-- Witness for the amended C1: the fact
`p(5, "a\"b\\c", abc)` (an integer, a string with quote and backslash,
and a bare-symbol string) satisfies the hypotheses, and its round trip
yields `p` with the wire tuple `("5", "a\"b\\c", "abc")`. -/
theorem C1_roundtrip_witness :
    validPredName "p" = true ∧
    ([ArgVal.int 5, ArgVal.str "a\"b\\c", ArgVal.str "abc"] ≠ []) ∧
    parse_answer_set (inBraces (serialize_fact "p"
        [ArgVal.int 5, ArgVal.str "a\"b\\c", ArgVal.str "abc"])) =
      some [("p", [["5", "a\"b\\c", "abc"]])] :=
  ⟨by decide, by simp,
    C1_roundtrip "p" [ArgVal.int 5, ArgVal.str "a\"b\\c", ArgVal.str "abc"]
      (by decide) (by simp) (by decide)⟩

/-- Claim C3 is false as stated: `parse_answer_set` maps the bare symbol
`abc` and the quoted string `"abc"` to the *same* constant value — the
plain string `abc` — so the lines `⦃q(abc)⦄` and `⦃q("abc")⦄` produce
equal raw answer sets; the two spellings are conflated, not distinct
(the source comments that on the Python side both are represented by
the same string). -/
theorem C3_counterexample :
    parse_answer_set (inBraces "q(abc)") = some [("q", [["abc"]])] ∧
    parse_answer_set (inBraces "q(\"abc\")") = some [("q", [["abc"]])] ∧
    parse_answer_set (inBraces "q(abc)") =
      parse_answer_set (inBraces "q(\"abc\")") :=
  ⟨rfl, rfl, rfl⟩

/-- Claim C3, amended: `parse_answer_set` maps a bare symbol and a
quoted string carrying the same text occurring in a raw answer-set line
to the *same* constant value in the resulting `RawAnswerSet`, namely
the text itself as a plain string; the two are always conflated.
(Distinct representation via `asp.QuotedConstant` exists only in the
OUTPUT-specification query parser, not in `parse_answer_set`.) -/
theorem C3_conflation (s : String) (hs : symbolChars s.data = true) :
    parse_answer_set (inBraces ("q(" ++ s ++ ")")) = some [("q", [[s]])] ∧
    parse_answer_set (inBraces ("q(" ++ quote s ++ ")")) = some [("q", [[s]])] := by
  constructor
  · show parseAnswerSetChars (inBraces ("q(" ++ s ++ ")")).data = _
    rw [inBraces_data]
    have hdata : ("q(" ++ s ++ ")").data = 'q' :: '(' :: s.data ++ [')'] := by
      simp [String.data_append]
    rw [hdata]
    apply parseAnswerSet_single_fact
    have hpn := parsePredicateName_chars ['q']
      ('(' :: s.data ++ [')'] ++ [closeBrace]) (by decide) (by simp; decide)
    have harg := parseArg_symbol s.data (')' :: [closeBrace]) hs (by simp; decide)
    simp only [parseFact, List.cons_append, List.nil_append, List.append_assoc,
      List.singleton_append] at hpn ⊢
    rw [hpn]
    have hlist : parseArgList ('(' :: (s.data ++ (')' :: [closeBrace]))) =
        ([s], [closeBrace]) := by
      simp only [parseArgList,
        skipWs_cons_of_not_ws (show isWs '(' = false by decide), if_pos rfl]
      rw [harg]
      have hmore : parseMoreArgs (')' :: [closeBrace]).length (')' :: [closeBrace]) =
          ([], ')' :: [closeBrace]) := by
        simp [parseMoreArgs,
          skipWs_cons_of_not_ws (show isWs ')' = false by decide),
          show ¬ (')' = ',') by decide]
      simp only [hmore, skipWs_cons_of_not_ws (show isWs ')' = false by decide)]
      simp
    simp only [show ∀ t : List Char, t ++ [')', closeBrace] = t ++ (')' :: [closeBrace])
      from fun t => rfl] at hlist ⊢
    rw [hlist]
  · have hq : "q(" ++ quote s ++ ")" = serialize_fact "q" [ArgVal.str s] := by
      apply String.ext
      simp [serialize_fact, args_str, arg_str, String.data_append]
    rw [hq]
    have hok : ∀ a ∈ [ArgVal.str s], argOK a = true := by
      intro a ha
      have : a = ArgVal.str s := by simpa using ha
      subst this
      simpa [argOK] using strOK_of_symbolChars s hs
    have := serialize_roundtrip "q" [ArgVal.str s] (by decide) (by simp) hok
    simpa [wire_str] using this

/-- Witness for the amended C3: the symbol text `abc` parses to the
same raw answer set whether written bare or quoted. -/
theorem C3_conflation_witness :
    symbolChars ("abc" : String).data = true ∧
    (parse_answer_set (inBraces ("q(" ++ "abc" ++ ")")) = some [("q", [["abc"]])] ∧
     parse_answer_set (inBraces ("q(" ++ quote "abc" ++ ")")) = some [("q", [["abc"]])]) :=
  ⟨by decide, C3_conflation "abc" (by decide)⟩

/-! ## Input mapping engine (`src/aspio/input.py`)

Host argument objects are modelled by `PyObj`: integers, strings, the
three `collections.abc` collection kinds the engine distinguishes
(`Set`, `Sequence` — lists and tuples are separate constructors, both
sequences — and `Mapping`), and attribute-carrying host objects.
Python collections are lists in iteration order.  Errors raised during
mapping are modelled by `InErr`; the engine's accessors translate
`AttributeError` / `KeyError` / `IndexError` / `TypeError` into
`ValueError` as the source does. -/

inductive PyObj where
  | int (i : Int)
  | str (s : String)
  | pyset (elems : List PyObj)
  | pyseq (elems : List PyObj)
  | pytup (elems : List PyObj)
  | pymap (items : List (PyObj × PyObj))
  | obj (attrs : List (String × PyObj))
deriving Repr

inductive InErr where
  /-- `ValueError`: wrong argument count, unresolvable accessor step,
  unidentifiable collection, tuple-target length mismatch. -/
  | valueError
  /-- `TypeError`: `len()` of a non-sized value in tuple destructuring. -/
  | typeError
  /-- `KeyError`: accessor base variable missing from the context
  (unreachable for specifications that passed the construction-time
  scope checks). -/
  | keyError
deriving DecidableEq, Repr

/-- Name → value context (`Context = Dict[Variable, Any]`), an
insertion-ordered association list with replace-on-reassign. -/
def Ctx := List (String × PyObj)

def Ctx.get : Ctx → String → Option PyObj
  | [], _ => none
  | (k, v) :: rest, name => if k = name then some v else Ctx.get rest name

def Ctx.assign : Ctx → String → PyObj → Ctx
  | [], name, v => [(name, v)]
  | (k, w) :: rest, name, v =>
    if k = name then (k, v) :: rest else (k, w) :: Ctx.assign rest name v

/-- Assignment targets (`AssignmentTarget`): `_`, a plain variable, or
a tuple pattern. -/
inductive Target where
  | anon
  | var (name : String)
  | tupleMatch (targets : List Target)
deriving Repr

/-- The element sequence Python's `len`/`zip` see on a value:
collections yield their elements, mappings their keys, strings their
characters; `len()` of anything else raises `TypeError`. -/
def PyObj.iterableElems : PyObj → Except InErr (List PyObj)
  | .pyset xs => .ok xs
  | .pyseq xs => .ok xs
  | .pytup xs => .ok xs
  | .pymap items => .ok (items.map Prod.fst)
  | .str s => .ok (s.data.map fun c => .str ⟨[c]⟩)
  | _ => .error .typeError

mutual

/-- Embeds `AssignmentTarget.assign`: anonymous targets discard, plain
variables bind, tuple targets check the length and destructure. -/
def Target.assign : Target → PyObj → Ctx → Except InErr Ctx
  | .anon, _, ctx => .ok ctx
  | .var name, v, ctx => .ok (ctx.assign name v)
  | .tupleMatch ts, v, ctx => do
    let elems ← v.iterableElems
    if elems.length ≠ ts.length then .error .valueError
    else Target.assignZip ts elems ctx

def Target.assignZip : List Target → List PyObj → Ctx → Except InErr Ctx
  | [], _, ctx => .ok ctx
  | _, [], ctx => .ok ctx
  | t :: ts, v :: vs, ctx => do
    let ctx' ← t.assign v ctx
    Target.assignZip ts vs ctx'

end

/-- Subscript keys produced by the INPUT grammar: integers or quoted
strings. -/
inductive SubKey where
  | int (i : Int)
  | str (s : String)
deriving DecidableEq, Repr

def SubKey.toPyObj : SubKey → PyObj
  | .int i => .int i
  | .str s => .str s

/-- Python sequence indexing with negative-index support. -/
def pyIndex {α : Type} (elems : List α) (i : Int) : Option α :=
  if 0 ≤ i then elems.get? i.toNat
  else
    let j := (elems.length : Int) + i
    if 0 ≤ j then elems.get? j.toNat else none

/-- Python `==` between a stored dictionary key and an int/str
subscript key: keys of other types never compare equal to an int or
str. -/
def keyEq : PyObj → SubKey → Bool
  | .int a, .int b => a == b
  | .str a, .str b => a == b
  | _, _ => false

def pyLookup : List (PyObj × PyObj) → SubKey → Option PyObj
  | [], _ => none
  | (k, v) :: rest, key => if keyEq k key then some v else pyLookup rest key

/-- One accessor path step: `.field` or `[key]`. -/
inductive Step where
  | attr (name : String)
  | sub (key : SubKey)
deriving Repr

/-- Embeds `Attribute.access` / `Subscript.access`: a failed step
raises `ValueError` (the source converts `AttributeError`, `KeyError`,
`IndexError` and `TypeError`). -/
def Step.access : Step → PyObj → Except InErr PyObj
  | .attr name, .obj attrs =>
    match Ctx.get attrs name with
    | some v => .ok v
    | none => .error .valueError
  | .attr _, _ => .error .valueError
  | .sub (.int i), .pyseq xs =>
    match pyIndex xs i with
    | some v => .ok v
    | none => .error .valueError
  | .sub (.int i), .pytup xs =>
    match pyIndex xs i with
    | some v => .ok v
    | none => .error .valueError
  | .sub (.int i), .str s =>
    match pyIndex s.data i with
    | some c => .ok (.str ⟨[c]⟩)
    | none => .error .valueError
  | .sub k, .pymap items =>
    match pyLookup items k with
    | some v => .ok v
    | none => .error .valueError
  | .sub _, _ => .error .valueError

/-- Embeds `Accessor`: a base variable plus a path of steps. -/
structure Accessor where
  variable_name : String
  path : List Step
deriving Repr

/-- Embeds `Accessor.perform_access`: look the base variable up in the
context (`context[self._variable]`) and fold the path steps. -/
def Accessor.perform_access (a : Accessor) (ctx : Ctx) : Except InErr PyObj := do
  let base ←
    match ctx.get a.variable_name with
    | some v => Except.ok v
    | none => Except.error InErr.keyError
  a.path.foldlM (fun acc step => step.access acc) base

/-- Embeds `Iteration`: `for target in accessor`. -/
structure Iteration where
  target : Target
  accessor : Accessor
deriving Repr

/-- Embeds `Iteration.get_collection_iterator`: sets yield plain
elements, sequences (lists, tuples, strings) yield `(index, element)`
pairs, mappings yield `(key, value)` pairs, anything else raises
`ValueError`. -/
def Iteration.collectionElems (it : Iteration) (ctx : Ctx) :
    Except InErr (List PyObj) := do
  let col ← it.accessor.perform_access ctx
  match col with
  | .pyset xs => .ok xs
  | .pyseq xs => .ok (xs.enum.map fun p => .pytup [.int p.1, p.2])
  | .pytup xs => .ok (xs.enum.map fun p => .pytup [.int p.1, p.2])
  | .str s => .ok (s.data.enum.map fun p => .pytup [.int p.1, .str ⟨[p.2]⟩])
  | .pymap items => .ok (items.map fun p => .pytup [p.1, p.2])
  | _ => .error .valueError

/-- A generated fact: predicate name and argument-value tuple. -/
def Fact := String × List PyObj

/-- Embeds `Predicate`: target predicate name, accessor arguments,
nested iterations. -/
structure Predicate where
  predicate : String
  arguments : List Accessor
  iterations : List Iteration
deriving Repr

/-- Evaluate every argument accessor in order against the current
context (`tuple(arg.perform_access(context) for arg in self._arguments)`). -/
def accessAll : List Accessor → Ctx → Except InErr (List PyObj)
  | [], _ => .ok []
  | a :: rest, ctx => do
    let v ← a.perform_access ctx
    let vs ← accessAll rest ctx
    .ok (v :: vs)

/-- Embeds the iterator-stack loop of `Predicate.perform_mapping` in
its recursive reading: the stack depth is the recursion depth, one
live iterator per open iteration, and a fact is generated exactly when
all iterations are open (`len(iter_stack) == len(self._iterations)`).
The source shares one mutable context dict; for specifications that
passed the construction-time scope checks every name is bound by a
unique parameter or iteration and accessors only read names bound by
enclosing binders, so the persistent contexts used here are
observationally identical. -/
def mapIterations (predicate : String) (arguments : List Accessor) :
    List Iteration → Ctx → Except InErr (List Fact)
  | [], ctx => do
    let vals ← accessAll arguments ctx
    .ok [(predicate, vals)]
  | it :: rest, ctx => do
    let elems ← it.collectionElems ctx
    elems.foldlM
      (fun acc v => do
        let ctx' ← it.target.assign v ctx
        let fs ← mapIterations predicate arguments rest ctx'
        .ok (acc ++ fs))
      []

def Predicate.perform_mapping (p : Predicate) (ctx : Ctx) :
    Except InErr (List Fact) :=
  mapIterations p.predicate p.arguments p.iterations ctx

/-- Modelled from the spec: the number of reachable combinations of a
rule's iteration bindings — the nested cross-product of its iterations,
where each inner collection is evaluated under the bindings of the
enclosing iterations. -/
def iterationCombinations : List Iteration → Ctx → Except InErr Nat
  | [], _ => .ok 1
  | it :: rest, ctx => do
    let elems ← it.collectionElems ctx
    elems.foldlM
      (fun n v => do
        let ctx' ← it.target.assign v ctx
        let m ← iterationCombinations rest ctx'
        .ok (n + m))
      0

/-! Construction-time checks (`check_and_update_variable_bindings`,
`check_variable_bindings`, `InputSpec.__init__`). -/

inductive ScopeErr where
  | redefinedName
  | undefinedName
deriving DecidableEq, Repr

mutual

def Target.checkBindings : Target → List String → Except ScopeErr (List String)
  | .anon, bound => .ok bound
  | .var name, bound =>
    if name ∈ bound then .error .redefinedName else .ok (bound ++ [name])
  | .tupleMatch ts, bound => Target.checkBindingsList ts bound

def Target.checkBindingsList : List Target → List String → Except ScopeErr (List String)
  | [], bound => .ok bound
  | t :: ts, bound => do
    let bound' ← t.checkBindings bound
    Target.checkBindingsList ts bound'

end

def Accessor.checkBindings (a : Accessor) (bound : List String) :
    Except ScopeErr Unit :=
  if a.variable_name ∈ bound then .ok () else .error .undefinedName

def Iteration.checkBindings (it : Iteration) (bound : List String) :
    Except ScopeErr (List String) := do
  it.accessor.checkBindings bound
  it.target.checkBindings bound

def Predicate.checkBindings (p : Predicate) (input_vars : List String) :
    Except ScopeErr Unit := do
  let bound ← p.iterations.foldlM (fun b it => it.checkBindings b) input_vars
  p.arguments.foldlM (fun _ a => a.checkBindings bound) ()

/-- Embeds `InputSpec`: parameter names and predicate rules. -/
structure InputSpec where
  parameters : List String
  predicates : List Predicate
deriving Repr

/-- Construction-time checks of `InputSpec.__init__`: pairwise-distinct
parameters, then per-rule scope checking. -/
def InputSpec.check (spec : InputSpec) : Except ScopeErr Unit := do
  if spec.parameters.length ≠ spec.parameters.eraseDups.length then
    Except.error ScopeErr.redefinedName
  else
    spec.predicates.foldlM (fun _ p => p.checkBindings spec.parameters) ()

/-- Embeds `InputSpec.perform_mapping`: check the argument count, then
run every rule on a fresh parameter context. -/
def InputSpec.perform_mapping (spec : InputSpec) (args : List PyObj) :
    Except InErr (List Fact) :=
  if spec.parameters.length ≠ args.length then .error .valueError
  else
    spec.predicates.foldlM
      (fun acc p => do
        let fs ← p.perform_mapping (List.zip spec.parameters args)
        .ok (acc ++ fs))
      []

/-! ## Claim C2: one fact per reachable iteration combination -/

theorem exc_bind_ok {ε α β : Type} (a : α) (f : α → Except ε β) :
    (Except.ok a >>= f) = f a := rfl

theorem exc_bind_error {ε α β : Type} (e : ε) (f : α → Except ε β) :
    ((Except.error e : Except ε α) >>= f) = Except.error e := rfl

theorem accessAll_length (ctx : Ctx) :
    ∀ (arguments : List Accessor) (vals : List PyObj),
      accessAll arguments ctx = .ok vals → vals.length = arguments.length := by
  intro arguments
  induction arguments with
  | nil =>
    intro vals h
    simp only [accessAll] at h
    cases h
    rfl
  | cons a rest ih =>
    intro vals h
    simp only [accessAll] at h
    cases hv : a.perform_access ctx with
    | error e => rw [hv, exc_bind_error] at h; cases h
    | ok v =>
      rw [hv, exc_bind_ok] at h
      cases hvs : accessAll rest ctx with
      | error e => rw [hvs, exc_bind_error] at h; cases h
      | ok vs =>
        rw [hvs, exc_bind_ok] at h
        cases h
        simp [ih vs hvs]

/-- Core induction for C2: a successful run of the (recursively read)
iterator-stack loop emits exactly as many facts as there are reachable
iteration-binding combinations, and every emitted fact has one argument
value per accessor. -/
theorem mapIterations_spec (predicate : String) (arguments : List Accessor) :
    ∀ (iters : List Iteration) (ctx : Ctx) (facts : List Fact),
      mapIterations predicate arguments iters ctx = .ok facts →
      iterationCombinations iters ctx = .ok facts.length ∧
      ∀ f ∈ facts, (f : String × List PyObj).2.length = arguments.length := by
  intro iters
  induction iters with
  | nil =>
    intro ctx facts h
    simp only [mapIterations] at h
    cases hv : accessAll arguments ctx with
    | error e => rw [hv, exc_bind_error] at h; cases h
    | ok vals =>
      rw [hv, exc_bind_ok] at h
      cases h
      refine ⟨rfl, ?_⟩
      intro f hf
      have : f = (predicate, vals) := by simpa using hf
      subst this
      exact accessAll_length ctx arguments vals hv
  | cons it rest ih =>
    intro ctx facts h
    simp only [mapIterations] at h
    cases he : it.collectionElems ctx with
    | error e =>
      rw [he, exc_bind_error] at h; cases h
    | ok elems =>
      rw [he, exc_bind_ok] at h
      have fold_spec :
          ∀ (elems : List PyObj) (acc : List Fact) (n : Nat) (facts : List Fact),
            (∀ f ∈ acc, (f : String × List PyObj).2.length = arguments.length) →
            n = acc.length →
            List.foldlM
              (fun acc v => do
                let ctx' ← it.target.assign v ctx
                let fs ← mapIterations predicate arguments rest ctx'
                Except.ok (acc ++ fs)) acc elems = .ok facts →
            List.foldlM
              (fun n v => do
                let ctx' ← it.target.assign v ctx
                let m ← iterationCombinations rest ctx'
                Except.ok (n + m)) n elems = .ok facts.length ∧
            ∀ f ∈ facts, (f : String × List PyObj).2.length = arguments.length := by
        intro elems
        induction elems with
        | nil =>
          intro acc n facts hacc hn hfold
          simp only [List.foldlM_nil] at hfold ⊢
          cases hfold
          exact ⟨by rw [hn]; rfl, hacc⟩
        | cons v vs ihv =>
          intro acc n facts hacc hn hfold
          simp only [List.foldlM_cons] at hfold ⊢
          cases ha : it.target.assign v ctx with
          | error e =>
            rw [ha, exc_bind_error, exc_bind_error] at hfold; cases hfold
          | ok ctx' =>
            rw [ha, exc_bind_ok] at hfold
            rw [exc_bind_ok]
            cases hm : mapIterations predicate arguments rest ctx' with
            | error e =>
              rw [hm, exc_bind_error, exc_bind_error] at hfold; cases hfold
            | ok fs =>
              rw [hm, exc_bind_ok, exc_bind_ok] at hfold
              obtain ⟨hcomb, hfs⟩ := ih ctx' fs hm
              rw [hcomb, exc_bind_ok, exc_bind_ok]
              have hacc' : ∀ f ∈ acc ++ fs,
                  (f : String × List PyObj).2.length = arguments.length := by
                intro f hf
                rcases List.mem_append.mp hf with hf1 | hf2
                · exact hacc f hf1
                · exact hfs f hf2
              have hn' : n + fs.length = (acc ++ fs).length := by
                simp [hn]
              exact ihv (acc ++ fs) (n + fs.length) facts hacc' hn' hfold
      have := fold_spec elems [] 0 facts (by simp) rfl h
      simp only [iterationCombinations, he, exc_bind_ok]
      exact this

/-- Claim C2: for every `InputSpec` that passed construction-time
checks and every argument list of matching length, a successful
`perform_mapping` run of a rule emits exactly one fact per reachable
combination of the rule's iteration bindings (the nested cross-product
of its iterations), each emitted fact's arity equals the rule's
accessor count, and a rule declaring zero iterations emits exactly one
fact. -/
theorem C2_perform_mapping (spec : InputSpec) (args : List PyObj)
    (hcheck : spec.check = .ok ())
    (hlen : args.length = spec.parameters.length)
    (p : Predicate) (hp : p ∈ spec.predicates) (facts : List Fact)
    (hrun : p.perform_mapping (List.zip spec.parameters args) = .ok facts) :
    iterationCombinations p.iterations (List.zip spec.parameters args) =
      .ok facts.length ∧
    (∀ f ∈ facts, (f : String × List PyObj).2.length = p.arguments.length) ∧
    (p.iterations = [] → facts.length = 1) := by
  obtain ⟨hcomb, harity⟩ :=
    mapIterations_spec p.predicate p.arguments p.iterations
      (List.zip spec.parameters args) facts hrun
  refine ⟨hcomb, harity, ?_⟩
  intro hzero
  rw [hzero] at hcomb
  simp only [iterationCombinations] at hcomb
  have h1 : 1 = facts.length := by simpa using hcomb
  omega

/-- Witness for C2 on the concrete specification
`INPUT (xs) ⦃ p(x) for x in xs; q(); ⦄` with `xs = ⦃1, 2⦄`:
the first rule emits one unary fact per set element (two reachable
combinations), and a zero-iteration rule emits exactly one fact. -/
theorem C2_perform_mapping_witness :
    (InputSpec.check
        ⟨["xs"], [⟨"p", [⟨"x", []⟩], [⟨.var "x", ⟨"xs", []⟩⟩]⟩,
                  ⟨"q", [], []⟩]⟩ = .ok ()) ∧
    (iterationCombinations [⟨.var "x", ⟨"xs", []⟩⟩]
        (List.zip ["xs"] [.pyset [.int 1, .int 2]]) = .ok 2 ∧
      (∀ f ∈ ([("p", [PyObj.int 1]), ("p", [PyObj.int 2])] : List Fact),
        (f : String × List PyObj).2.length = 1) ∧
      ([⟨Target.var "x", ⟨"xs", []⟩⟩] = ([] : List Iteration) →
        ([("p", [PyObj.int 1]), ("p", [PyObj.int 2])] : List Fact).length = 1)) := by
  constructor
  · rfl
  · have h := C2_perform_mapping
      ⟨["xs"], [⟨"p", [⟨"x", []⟩], [⟨.var "x", ⟨"xs", []⟩⟩]⟩, ⟨"q", [], []⟩]⟩
      [.pyset [.int 1, .int 2]] rfl rfl
      ⟨"p", [⟨"x", []⟩], [⟨.var "x", ⟨"xs", []⟩⟩]⟩ (by simp)
      [("p", [PyObj.int 1]), ("p", [PyObj.int 2])] rfl
    exact h

/-! ## Output result mapper (`src/aspio/output.py`)

Mapped host values are modelled by `Value`: constants, tuples (the
default constructor of `ExprObject`), the three collection results
(`frozenset` / `list` / `dict` via the default registry constructors in
`registry.py`), and symbolic applications of registered constructors.
Python `==` between values, used by `set(...)` deduplication and by
dictionary key membership, is modelled by the fuelled structural
equality `Value.beqFuel` (the fuel is always sufficient for values of
bounded depth; dictionaries and constructor applications compare
structurally, an approximation that no claim exercises). -/

inductive Value where
  | int (i : Int)
  | str (s : String)
  | tup (elems : List Value)
  | vset (elems : List Value)
  | vseq (elems : List Value)
  | vdict (items : List (Value × Value))
  | ctorApp (name : String) (args : List Value)

def beqListWith {α : Type} (f : α → α → Bool) : List α → List α → Bool
  | [], [] => true
  | x :: xs, y :: ys => f x y && beqListWith f xs ys
  | _, _ => false

def Value.beqFuel : Nat → Value → Value → Bool
  | 0, _, _ => false
  | n + 1, v, w =>
    match v, w with
    | .int a, .int b => a == b
    | .str a, .str b => a == b
    | .tup xs, .tup ys => beqListWith (Value.beqFuel n) xs ys
    | .vset xs, .vset ys => beqListWith (Value.beqFuel n) xs ys
    | .vseq xs, .vseq ys => beqListWith (Value.beqFuel n) xs ys
    | .vdict xs, .vdict ys =>
      beqListWith (fun p q => Value.beqFuel n p.1 q.1 && Value.beqFuel n p.2 q.2) xs ys
    | .ctorApp n1 a1, .ctorApp n2 a2 => n1 == n2 && beqListWith (Value.beqFuel n) a1 a2
    | _, _ => false

/-- `set(gen)` (then `frozenset`): insert in arrival order, dropping
elements equal to an already-inserted one.  The fuel (taken from the
evaluator, always ample for the values at hand) bounds the recursion
depth of the structural `==`. -/
def dedupValues (fuel : Nat) (vals : List Value) : List Value :=
  vals.foldl
    (fun acc v => if acc.any (fun w => Value.beqFuel fuel w v) then acc else acc ++ [v]) []

def vdictHasKey (fuel : Nat) (d : List (Value × Value)) (k : Value) : Bool :=
  d.any fun p => Value.beqFuel fuel p.1 k

/-- Output-time errors.  The four named errors are the library's
output-mapping exceptions; the remaining constructors model raised
Python exceptions (`NotImplementedError`, `AttributeError` from the
deleted `answer_set`, failed `assert` statements, `KeyError`,
`IndexError`) and exhausted recursion fuel. -/
inductive OutErr where
  | undefinedName (name : String)
  | circularRef (name : String)
  | invalidIndices
  | duplicateKey
  | notImplementedCtor
  | attributeAnswerSet
  | assertionFail
  | keyLookupFail (name : String)
  | indexFail
  | outOfFuel
deriving DecidableEq, Repr

/-- Check-time metadata carried by every `ExprCollection` node: its
unique auxiliary predicate name (`'aspio__' + id(self)`, unique per
node) and the fixed / captured variable tuples computed by `check()`
(`fixed_query_variables` is a prefix of `captured_variables`).
`evaluate` reads only these fields; the node's query contributes at
evaluation time solely through the solver-computed tuples of the
auxiliary predicate in the raw answer set. -/
structure CollMeta where
  output_predicate : String
  fixed_query_variables : List String
  captured_variables : List String

/-- Output expressions (`Expr` and subclasses).  `Constant` carries an
int or str literal; collection nodes carry their check-time metadata. -/
inductive Expr where
  | constInt (i : Int)
  | constStr (s : String)
  | ref (name : String)
  | evar (name : String)
  | object (constructor : Option String) (args : List Expr)
  | eset (meta : CollMeta) (content : Expr)
  | eseq (meta : CollMeta) (content : Expr) (index_var : String)
  | edict (meta : CollMeta) (content : Expr) (key : Expr)

/-- `LocalContext.va`: current assignment of ASP variables to strings. -/
def LC := List (String × String)

def LC.get : LC → String → Option String
  | [], _ => none
  | (k, v) :: rest, name => if k = name then some v else LC.get rest name

def LC.has (lc : LC) (name : String) : Bool :=
  (lc.get name).isSome

def LC.insert : LC → String → String → LC
  | [], name, v => [(name, v)]
  | (k, w) :: rest, name, v =>
    if k = name then (k, v) :: rest else (k, w) :: LC.insert rest name v

def LC.remove : LC → String → LC
  | [], _ => []
  | (k, w) :: rest, name => if k = name then rest else (k, w) :: LC.remove rest name

/-- The push loop of `LocalContext.assign_variables`: assert each name
unbound, then bind it; on an assertion failure the names already pushed
stay bound (the source loop has no cleanup). -/
def lcAssignLoop : LC → List (String × String) → (Except OutErr Unit) × LC
  | lc, [] => (.ok (), lc)
  | lc, (n, v) :: rest =>
    if lc.has n then (.error .assertionFail, lc)
    else lcAssignLoop (lc.insert n v) rest

/-- The pop loop after the `yield`: `del self.va[name]` for each pushed
name (`del` of an unbound name raises `KeyError`). -/
def lcDeleteLoop : LC → List String → (Except OutErr Unit) × LC
  | lc, [] => (.ok (), lc)
  | lc, n :: rest =>
    if lc.has n then lcDeleteLoop (lc.remove n) rest
    else (.error (.keyLookupFail n), lc)

/-- Per-name memo entries of `OutputResult.objs`: the in-progress
sentinel `__object_is_being_mapped` or a resolved value. -/
inductive MemoEntry where
  | inProgress
  | resolved (v : Value)

/-- Mutable state of one `OutputResult`: the memo table and the raw
answer set (`none` after `del self.answer_set`). -/
structure OutState where
  objs : List (String × MemoEntry)
  ans : Option RawAnswerSet

def objsLookup : List (String × MemoEntry) → String → Option MemoEntry
  | [], _ => none
  | (k, e) :: rest, name => if k = name then some e else objsLookup rest name

def objsInsert : List (String × MemoEntry) → String → MemoEntry → List (String × MemoEntry)
  | [], name, e => [(name, e)]
  | (k, f) :: rest, name, e =>
    if k = name then (k, e) :: rest else (k, f) :: objsInsert rest name e

/-- The top-level name → expression mapping of an `OutputSpec`
(`OutputSpec.__init__` rejects duplicate names, so keys are unique). -/
def Toplevel := List (String × Expr)

def Toplevel.get : Toplevel → String → Option Expr
  | [], _ => none
  | (k, e) :: rest, name => if k = name then some e else Toplevel.get rest name

/-- Registered constructor names of the `Registry` (`resolve` returns a
callable for registered names and `None` otherwise; applications of
registered constructors are kept symbolic as `Value.ctorApp`). -/
def Registry := List String

/-- Python `int(str)`: optional surrounding whitespace, optional sign,
decimal digits with single underscores between digits. -/
def pyWs (c : Char) : Bool :=
  c = ' ' || c = '	' || c = '
' || c = '
' || c = '' || c = ''

def digitVal (c : Char) : Nat :=
  c.toNat - '0'.toNat

def pyIntLoop : List Char → Nat → Option Nat
  | [], acc => some acc
  | '_' :: c :: rest, acc =>
    if isDigit09 c then pyIntLoop rest (acc * 10 + digitVal c) else none
  | '_' :: [], _ => none
  | c :: rest, acc =>
    if isDigit09 c then pyIntLoop rest (acc * 10 + digitVal c) else none

def pyIntDigits : List Char → Option Nat
  | [] => none
  | c :: rest => if isDigit09 c then pyIntLoop rest (digitVal c) else none

def trimPyWs (cs : List Char) : List Char :=
  ((cs.dropWhile pyWs).reverse.dropWhile pyWs).reverse

def pyInt (s : String) : Option Int :=
  match trimPyWs s.data with
  | '+' :: rest => (pyIntDigits rest).map Int.ofNat
  | '-' :: rest => (pyIntDigits rest).map fun n => -(n : Int)
  | rest => (pyIntDigits rest).map Int.ofNat

def insertSortedInt (x : Int) : List Int → List Int
  | [] => [x]
  | y :: ys => if x ≤ y then x :: y :: ys else y :: insertSortedInt x ys

/-- Python `sorted` on integers (ascending). -/
def sortInts (l : List Int) : List Int :=
  l.foldr insertSortedInt []

def insertSortedPair (p : Int × Value) : List (Int × Value) → List (Int × Value)
  | [] => [p]
  | q :: qs => if p.1 ≤ q.1 then p :: q :: qs else q :: insertSortedPair p qs

/-- Python `sorted` on `(index, content)` pairs.  The source compares
pairs lexicographically; the range check guarantees the indices are
pairwise distinct when this sort runs, so sorting by the index key
alone is identical. -/
def sortPairs (l : List (Int × Value)) : List (Int × Value) :=
  l.foldr insertSortedPair []

def rangeInts (n : Nat) : List Int :=
  (List.range n).map Int.ofNat

def listIdxOf (x : String) : List String → Option Nat
  | [] => none
  | y :: ys => if y = x then some 0 else (listIdxOf x ys).map Nat.succ

/-- The fixed-prefix filter loop of
`ExprCollection.get_captured_values`: keep a tuple iff every fixed
variable's current binding equals the corresponding tuple entry;
`lc.va[v]` of an unbound fixed variable raises `KeyError`, an
out-of-range `captured_values[i]` raises `IndexError`, and the loop
breaks (without touching later positions) at the first mismatch. -/
def matchesFixed (lc : LC) (cv : List String) : List String → Nat → Except OutErr Bool
  | [], _ => .ok true
  | v :: vs, i => do
    let lv ←
      match lc.get v with
      | some x => Except.ok x
      | none => Except.error (OutErr.keyLookupFail v)
    let cvi ←
      match cv.get? i with
      | some x => Except.ok x
      | none => Except.error OutErr.indexFail
    if lv ≠ cvi then .ok false
    else matchesFixed lc cv vs (i + 1)

def filterCaptured (fixed : List String) (lc : LC) :
    List (List String) → Except OutErr (List (List String))
  | [] => .ok []
  | cv :: rest => do
    let keep ← matchesFixed lc cv fixed 0
    let tail ← filterCaptured fixed lc rest
    .ok (if keep then cv :: tail else tail)

/-- Embeds `ExprCollection.get_captured_values`: read the auxiliary
predicate's tuples from the raw answer set (`AttributeError` if the
answer set was already deleted) and keep those whose fixed-variable
prefix matches the current bindings. -/
def getCapturedValues (meta : CollMeta) (lc : LC) (st : OutState) :
    Except OutErr (List (List String)) :=
  match st.ans with
  | none => .error .attributeAnswerSet
  | some a => filterCaptured meta.fixed_query_variables lc
      (a.tuplesOf meta.output_predicate)

/-- `index_for` of `ExprSequence.evaluate`: fetch the index column of a
captured tuple and convert with `int(...)`, translating a conversion
failure into `InvalidIndicesError`. -/
def index_for (index_pos : Nat) (cv : List String) : Except OutErr Int := do
  let s ←
    match cv.get? index_pos with
    | some x => Except.ok x
    | none => Except.error OutErr.indexFail
  match pyInt s with
  | some i => .ok i
  | none => .error .invalidIndices

/-- The first pass of `ExprSequence.evaluate`:
`sorted(index_for(cv) for cv in all_captured_values)` evaluates
`index_for` on every tuple (failing at the first bad index) before
sorting. -/
def indexValues (index_pos : Nat) : List (List String) → Except OutErr (List Int)
  | [] => .ok []
  | cv :: rest => do
    let i ← index_for index_pos cv
    let is ← indexValues index_pos rest
    .ok (i :: is)

/-- Requests processed by the output evaluator `outEval`.  Python's
mutually recursive `Expr.evaluate` / `OutputResult.get_object` (plus
the per-collection iteration loops) are modelled as one fuel-indexed
function over this request type, so that the definition is structurally
recursive on the fuel and computes by kernel reduction. -/
inductive EvalReq where
  | expr (e : Expr) (lc : LC)
  | obj (name : String)
  | args (es : List Expr) (lc : LC)
  | subexpr (meta : CollMeta) (e : Expr) (cv : List String) (lc : LC)
  | elems (meta : CollMeta) (content : Expr) (tuples : List (List String)) (lc : LC)
  | seqPairs (meta : CollMeta) (content : Expr) (pos : Nat)
      (tuples : List (List String)) (lc : LC)
  | dictItems (meta : CollMeta) (content : Expr) (key : Expr)
      (tuples : List (List String)) (d : List (Value × Value)) (lc : LC)

/-- Results of the evaluator, one shape per request kind. -/
inductive EvalOut where
  | val (v : Value)
  | vals (l : List Value)
  | pairs (l : List (Int × Value))
  | items (l : List (Value × Value))

def EvalReq.lcOf : EvalReq → LC
  | .expr _ lc => lc
  | .obj _ => []
  | .args _ lc => lc
  | .subexpr _ _ _ lc => lc
  | .elems _ _ _ lc => lc
  | .seqPairs _ _ _ _ lc => lc
  | .dictItems _ _ _ _ _ lc => lc

/-- The output evaluator.  Each branch embeds the corresponding method
of `src/aspio/output.py`:

* `.expr`: `Expr.evaluate` of each variant (`Constant`, `Reference`,
  `Variable`, `ExprObject`, `ExprSet`, `ExprSequence`,
  `ExprDictionary`);
* `.obj`: `OutputResult.get_object`, the three-state memo machine with
  the `del self.answer_set` release when every top-level name has a
  memo entry (the returned context is the unused `[]`);
* `.args`: the in-order argument evaluation of `ExprObject.evaluate`;
* `.subexpr`: `ExprCollection.eval_subexpression` wrapped in
  `LocalContext.assign_variables` (no cleanup on a raised exception —
  the generator-based context manager has no `try`/`finally`);
* `.elems` / `.seqPairs` / `.dictItems`: the per-tuple content loops of
  the three collection evaluators.

Every recursive call spends one unit of fuel; with ample fuel the
`.outOfFuel` result never occurs.  Python raises exceptions past
mutated state, so errors are returned together with the context and
state as mutated so far. -/
def outEval (fuel : Nat) (top : Toplevel) (reg : Registry) :
    EvalReq → OutState → (Except OutErr EvalOut) × LC × OutState :=
  match fuel with
  | 0 => fun req st => (.error .outOfFuel, req.lcOf, st)
  | fuel + 1 => fun req st =>
    match req with
    | .expr e lc =>
      match e with
      | .constInt i => (.ok (.val (.int i)), lc, st)
      | .constStr s => (.ok (.val (.str s)), lc, st)
      | .ref name =>
        match outEval fuel top reg (.obj name) st with
        | (.ok (.val v), _, st') => (.ok (.val v), lc, st')
        | (.ok _, _, st') => (.error .assertionFail, lc, st')
        | (.error err, _, st') => (.error err, lc, st')
      | .evar name =>
        match LC.get lc name with
        | some v => (.ok (.val (.str v)), lc, st)
        | none => (.error .assertionFail, lc, st)
      | .object ctor args =>
        match ctor with
        | some cname =>
          if reg.contains cname then
            match outEval fuel top reg (.args args lc) st with
            | (.ok (.vals vs), lc', st') => (.ok (.val (.ctorApp cname vs)), lc', st')
            | (.ok _, lc', st') => (.error .assertionFail, lc', st')
            | (.error err, lc', st') => (.error err, lc', st')
          else (.error .notImplementedCtor, lc, st)
        | none =>
          match outEval fuel top reg (.args args lc) st with
          | (.ok (.vals vs), lc', st') => (.ok (.val (.tup vs)), lc', st')
          | (.ok _, lc', st') => (.error .assertionFail, lc', st')
          | (.error err, lc', st') => (.error err, lc', st')
      | .eset meta content =>
        match getCapturedValues meta lc st with
        | .error err => (.error err, lc, st)
        | .ok tuples =>
          match outEval fuel top reg (.elems meta content tuples lc) st with
          | (.ok (.vals vs), lc', st') =>
            (.ok (.val (.vset (dedupValues (fuel + 1) vs))), lc', st')
          | (.ok _, lc', st') => (.error .assertionFail, lc', st')
          | (.error err, lc', st') => (.error err, lc', st')
      | .eseq meta content ivar =>
        match getCapturedValues meta lc st with
        | .error err => (.error err, lc, st)
        | .ok tuples =>
          match listIdxOf ivar meta.captured_variables with
          | none => (.error .assertionFail, lc, st)
          | some pos =>
            match indexValues pos tuples with
            | .error err => (.error err, lc, st)
            | .ok idxs =>
              if sortInts idxs ≠ rangeInts tuples.length then
                (.error .invalidIndices, lc, st)
              else
                match outEval fuel top reg (.seqPairs meta content pos tuples lc) st with
                | (.ok (.pairs xs), lc', st') =>
                  (.ok (.val (.vseq ((sortPairs xs).map Prod.snd))), lc', st')
                | (.ok _, lc', st') => (.error .assertionFail, lc', st')
                | (.error err, lc', st') => (.error err, lc', st')
      | .edict meta content key =>
        match getCapturedValues meta lc st with
        | .error err => (.error err, lc, st)
        | .ok tuples =>
          match outEval fuel top reg (.dictItems meta content key tuples [] lc) st with
          | (.ok (.items d), lc', st') => (.ok (.val (.vdict d)), lc', st')
          | (.ok _, lc', st') => (.error .assertionFail, lc', st')
          | (.error err, lc', st') => (.error err, lc', st')
    | .obj name =>
      match objsLookup st.objs name with
      | some .inProgress => (.error (.circularRef name), [], st)
      | some (.resolved v) => (.ok (.val v), [], st)
      | none =>
        match Toplevel.get top name with
        | none => (.error (.undefinedName name), [], st)
        | some e =>
          let st1 : OutState := { st with objs := objsInsert st.objs name .inProgress }
          match outEval fuel top reg (.expr e []) st1 with
          | (.error err, _, st2) => (.error err, [], st2)
          | (.ok (.val v), _, st2) =>
            let st3 : OutState :=
              { st2 with objs := objsInsert st2.objs name (.resolved v) }
            let st4 : OutState :=
              if top.length = st3.objs.length then { st3 with ans := none } else st3
            (.ok (.val v), [], st4)
          | (.ok _, _, st2) => (.error .assertionFail, [], st2)
    | .args es lc =>
      match es with
      | [] => (.ok (.vals []), lc, st)
      | e :: rest =>
        match outEval fuel top reg (.expr e lc) st with
        | (.ok (.val v), lc1, st1) =>
          match outEval fuel top reg (.args rest lc1) st1 with
          | (.ok (.vals vs), lc2, st2) => (.ok (.vals (v :: vs)), lc2, st2)
          | (.ok _, lc2, st2) => (.error .assertionFail, lc2, st2)
          | (.error err, lc2, st2) => (.error err, lc2, st2)
        | (.ok _, lc1, st1) => (.error .assertionFail, lc1, st1)
        | (.error err, lc1, st1) => (.error err, lc1, st1)
    | .subexpr meta e cv lc =>
      if meta.captured_variables.length ≠ cv.length then
        (.error .assertionFail, lc, st)
      else
        let i := meta.fixed_query_variables.length
        let names := meta.captured_variables.drop i
        let vals := cv.drop i
        match lcAssignLoop lc (names.zip vals) with
        | (.error err, lc') => (.error err, lc', st)
        | (.ok _, lc') =>
          match outEval fuel top reg (.expr e lc') st with
          | (.ok (.val v), lc'', st') =>
            match lcDeleteLoop lc'' names with
            | (.ok _, lc3) => (.ok (.val v), lc3, st')
            | (.error err, lc3) => (.error err, lc3, st')
          | (.ok _, lc'', st') => (.error .assertionFail, lc'', st')
          | (.error err, lc'', st') => (.error err, lc'', st')
    | .elems meta content tuples lc =>
      match tuples with
      | [] => (.ok (.vals []), lc, st)
      | cv :: rest =>
        match outEval fuel top reg (.subexpr meta content cv lc) st with
        | (.ok (.val v), lc1, st1) =>
          match outEval fuel top reg (.elems meta content rest lc1) st1 with
          | (.ok (.vals vs), lc2, st2) => (.ok (.vals (v :: vs)), lc2, st2)
          | (.ok _, lc2, st2) => (.error .assertionFail, lc2, st2)
          | (.error err, lc2, st2) => (.error err, lc2, st2)
        | (.ok _, lc1, st1) => (.error .assertionFail, lc1, st1)
        | (.error err, lc1, st1) => (.error err, lc1, st1)
    | .seqPairs meta content pos tuples lc =>
      match tuples with
      | [] => (.ok (.pairs []), lc, st)
      | cv :: rest =>
        match index_for pos cv with
        | .error err => (.error err, lc, st)
        | .ok i =>
          match outEval fuel top reg (.subexpr meta content cv lc) st with
          | (.ok (.val v), lc1, st1) =>
            match outEval fuel top reg (.seqPairs meta content pos rest lc1) st1 with
            | (.ok (.pairs xs), lc2, st2) => (.ok (.pairs ((i, v) :: xs)), lc2, st2)
            | (.ok _, lc2, st2) => (.error .assertionFail, lc2, st2)
            | (.error err, lc2, st2) => (.error err, lc2, st2)
          | (.ok _, lc1, st1) => (.error .assertionFail, lc1, st1)
          | (.error err, lc1, st1) => (.error err, lc1, st1)
    | .dictItems meta content key tuples d lc =>
      match tuples with
      | [] => (.ok (.items d), lc, st)
      | cv :: rest =>
        match outEval fuel top reg (.subexpr meta key cv lc) st with
        | (.ok (.val k), lc1, st1) =>
          if vdictHasKey (fuel + 1) d k then (.error .duplicateKey, lc1, st1)
          else
            match outEval fuel top reg (.subexpr meta content cv lc1) st1 with
            | (.ok (.val v), lc2, st2) =>
              outEval fuel top reg (.dictItems meta content key rest (d ++ [(k, v)]) lc2) st2
            | (.ok _, lc2, st2) => (.error .assertionFail, lc2, st2)
            | (.error err, lc2, st2) => (.error err, lc2, st2)
        | (.ok _, lc1, st1) => (.error .assertionFail, lc1, st1)
        | (.error err, lc1, st1) => (.error err, lc1, st1)

/-- Embeds `Expr.evaluate`. -/
def evaluate (fuel : Nat) (top : Toplevel) (reg : Registry) (e : Expr)
    (lc : LC) (st : OutState) : (Except OutErr Value) × LC × OutState :=
  match outEval fuel top reg (.expr e lc) st with
  | (.ok (.val v), lc', st') => (.ok v, lc', st')
  | (.ok _, lc', st') => (.error .assertionFail, lc', st')
  | (.error err, lc', st') => (.error err, lc', st')

/-- Embeds `OutputResult.get_object`. -/
def get_object (fuel : Nat) (top : Toplevel) (reg : Registry) (name : String)
    (st : OutState) : (Except OutErr Value) × OutState :=
  match outEval fuel top reg (.obj name) st with
  | (.ok (.val v), _, st') => (.ok v, st')
  | (.ok _, _, st') => (.error .assertionFail, st')
  | (.error err, _, st') => (.error err, st')

/-- A fresh `OutputResult` for a raw answer set: empty memo table,
answer set present (`OutputSpec.prepare_mapping`). -/
def freshState (a : RawAnswerSet) : OutState :=
  { objs := [], ans := some a }

/-! ## Memo-table lemmas -/

theorem objsLookup_insert_ne {objs : List (String × MemoEntry)} {k name : String}
    (h : ¬ (k = name)) (e : MemoEntry) :
    objsLookup (objsInsert objs k e) name = objsLookup objs name := by
  induction objs with
  | nil => simp [objsInsert, objsLookup, h]
  | cons p rest ih =>
    by_cases hk : p.1 = k
    · have hpn : ¬ (p.1 = name) := by rw [hk]; exact h
      cases p
      simp_all [objsInsert, objsLookup]
    · cases p
      simp only [objsInsert, objsLookup] at *
      split
      next h2 => simp_all [objsLookup]
      next h2 => simp_all [objsLookup]

theorem lookup_none_ne {objs : List (String × MemoEntry)} {k name : String}
    {e : MemoEntry} (hk : objsLookup objs k = none)
    (hn : objsLookup objs name = some e) : ¬ (k = name) := by
  intro hkn
  rw [hkn, hn] at hk
  cases hk

theorem objsLookup_insert_self (objs : List (String × MemoEntry)) (k : String)
    (e : MemoEntry) : objsLookup (objsInsert objs k e) k = some e := by
  induction objs with
  | nil => simp [objsInsert, objsLookup]
  | cons p rest ih =>
    cases p with
    | mk k' f =>
      by_cases hk : k' = k
      · simp [objsInsert, objsLookup, hk]
      · simp [objsInsert, objsLookup, hk, ih]

/-- An entry that is `inProgress` when the evaluator is entered is
still `inProgress` in the state the evaluator returns: `get_object`
creates sentinels only for names that have no entry and upgrades to
`resolved` only the sentinel it created itself. -/
theorem outEval_inProgress_mono :
    ∀ (fuel : Nat) (top : Toplevel) (reg : Registry) (req : EvalReq)
      (st : OutState) (name : String),
      objsLookup st.objs name = some .inProgress →
      objsLookup (outEval fuel top reg req st).2.2.objs name = some .inProgress := by
  intro fuel
  induction fuel with
  | zero => intro top reg req st name h; simpa [outEval] using h
  | succ f ih =>
    intro top reg req st name h
    match req with
    | .expr e lc =>
      match e with
      | .constInt i => simpa [outEval] using h
      | .constStr s => simpa [outEval] using h
      | .ref n =>
        have := ih top reg (.obj n) st name h
        simp only [outEval]
        rcases hr : outEval f top reg (.obj n) st with ⟨r, lc2, st2⟩
        rw [hr] at this
        try rw [hr]
        match r with
        | .ok (.val v) => simpa using this
        | .ok (.vals l) => simpa using this
        | .ok (.pairs l) => simpa using this
        | .ok (.items l) => simpa using this
        | .error err => simpa using this
      | .evar n =>
        match hl : LC.get lc n with
        | some v => simp only [outEval, hl]; exact h
        | none => simp only [outEval, hl]; exact h
      | .object ctor args =>
        have harg := ih top reg (.args args lc) st name h
        match ctor with
        | some cname =>
          by_cases hc : List.contains reg cname = true
          · simp only [outEval, hc, reduceIte]
            rcases hr : outEval f top reg (.args args lc) st with ⟨r, lc2, st2⟩
            rw [hr] at harg
            try rw [hr]
            match r with
            | .ok (.val v) => simpa using harg
            | .ok (.vals l) => simpa using harg
            | .ok (.pairs l) => simpa using harg
            | .ok (.items l) => simpa using harg
            | .error err => simpa using harg
          · simp only [outEval, Bool.not_eq_true] at hc
            simp only [outEval, hc, Bool.false_eq_true, reduceIte]
            simpa using h
        | none =>
          simp only [outEval]
          rcases hr : outEval f top reg (.args args lc) st with ⟨r, lc2, st2⟩
          rw [hr] at harg
          try rw [hr]
          match r with
          | .ok (.val v) => simpa using harg
          | .ok (.vals l) => simpa using harg
          | .ok (.pairs l) => simpa using harg
          | .ok (.items l) => simpa using harg
          | .error err => simpa using harg
      | .eset meta content =>
        simp only [outEval]
        match hg : getCapturedValues meta lc st with
        | .error err => simp only [hg]; exact h
        | .ok tuples =>
          simp only [hg]
          have hel := ih top reg (.elems meta content tuples lc) st name h
          match hr : outEval f top reg (.elems meta content tuples lc) st with
          | (.ok (.val v), lc2, st2) => rw [hr] at hel; simpa using hel
          | (.ok (.vals l), lc2, st2) => rw [hr] at hel; simpa using hel
          | (.ok (.pairs l), lc2, st2) => rw [hr] at hel; simpa using hel
          | (.ok (.items l), lc2, st2) => rw [hr] at hel; simpa using hel
          | (.error err, lc2, st2) => rw [hr] at hel; simpa using hel
      | .eseq meta content ivar =>
        simp only [outEval]
        match hg : getCapturedValues meta lc st with
        | .error err => simp only [hg]; exact h
        | .ok tuples =>
          simp only [hg]
          match hi : listIdxOf ivar meta.captured_variables with
          | none => simp only [hi]; exact h
          | some pos =>
            simp only [hi]
            match hv : indexValues pos tuples with
            | .error err => simp only [hv]; exact h
            | .ok idxs =>
              simp only [hv]
              by_cases hs : sortInts idxs = rangeInts tuples.length
              · simp only [hs, ne_eq, not_true_eq_false, if_neg, ite_false]
                have hsp := ih top reg (.seqPairs meta content pos tuples lc) st name h
                match hr : outEval f top reg (.seqPairs meta content pos tuples lc) st with
                | (.ok (.val v), lc2, st2) => rw [hr] at hsp; simpa using hsp
                | (.ok (.vals l), lc2, st2) => rw [hr] at hsp; simpa using hsp
                | (.ok (.pairs l), lc2, st2) => rw [hr] at hsp; simpa using hsp
                | (.ok (.items l), lc2, st2) => rw [hr] at hsp; simpa using hsp
                | (.error err, lc2, st2) => rw [hr] at hsp; simpa using hsp
              · simp only [ne_eq, hs, not_false_eq_true, if_true, ite_true]
                exact h
      | .edict meta content key =>
        simp only [outEval]
        match hg : getCapturedValues meta lc st with
        | .error err => simp only [hg]; exact h
        | .ok tuples =>
          simp only [hg]
          have hd := ih top reg (.dictItems meta content key tuples [] lc) st name h
          match hr : outEval f top reg (.dictItems meta content key tuples [] lc) st with
          | (.ok (.val v), lc2, st2) => rw [hr] at hd; simpa using hd
          | (.ok (.vals l), lc2, st2) => rw [hr] at hd; simpa using hd
          | (.ok (.pairs l), lc2, st2) => rw [hr] at hd; simpa using hd
          | (.ok (.items l), lc2, st2) => rw [hr] at hd; simpa using hd
          | (.error err, lc2, st2) => rw [hr] at hd; simpa using hd
    | .obj n =>
      simp only [outEval]
      match ho : objsLookup st.objs n with
      | some .inProgress => simp only [ho]; exact h
      | some (.resolved v) => simp only [ho]; exact h
      | none =>
        simp only [ho]
        have hne : ¬ (n = name) := lookup_none_ne ho h
        match ht : Toplevel.get top n with
        | none => simp only [ht]; exact h
        | some e =>
          simp only [ht]
          have h1 : objsLookup (objsInsert st.objs n .inProgress) name = some .inProgress := by
            rw [objsLookup_insert_ne hne]; exact h
          have hev := ih top reg (.expr e [])
            { st with objs := objsInsert st.objs n .inProgress } name h1
          match hr : outEval f top reg (.expr e [])
            { st with objs := objsInsert st.objs n .inProgress } with
          | (.error err, lc2, st2) => rw [hr] at hev; simpa using hev
          | (.ok (.val v), lc2, st2) =>
            rw [hr] at hev
            have h2 : objsLookup (objsInsert st2.objs n (.resolved v)) name = some .inProgress := by
              rw [objsLookup_insert_ne hne]; exact hev
            by_cases hlen : top.length = (objsInsert st2.objs n (.resolved v)).length
            · simpa [hlen] using h2
            · simpa [hlen] using h2
          | (.ok (.vals l), lc2, st2) => rw [hr] at hev; simpa using hev
          | (.ok (.pairs l), lc2, st2) => rw [hr] at hev; simpa using hev
          | (.ok (.items l), lc2, st2) => rw [hr] at hev; simpa using hev
    | .args es lc =>
      match es with
      | [] => simpa [outEval] using h
      | e :: rest =>
        simp only [outEval]
        have h1 := ih top reg (.expr e lc) st name h
        match hr : outEval f top reg (.expr e lc) st with
        | (.ok (.val v), lc1, st1) =>
          rw [hr] at h1
          simp only []
          have h2 := ih top reg (.args rest lc1) st1 name h1
          match hr2 : outEval f top reg (.args rest lc1) st1 with
          | (.ok (.val v2), lc2, st2) => rw [hr2] at h2; simpa using h2
          | (.ok (.vals l), lc2, st2) => rw [hr2] at h2; simpa using h2
          | (.ok (.pairs l), lc2, st2) => rw [hr2] at h2; simpa using h2
          | (.ok (.items l), lc2, st2) => rw [hr2] at h2; simpa using h2
          | (.error err, lc2, st2) => rw [hr2] at h2; simpa using h2
        | (.ok (.vals l), lc1, st1) => rw [hr] at h1; simpa using h1
        | (.ok (.pairs l), lc1, st1) => rw [hr] at h1; simpa using h1
        | (.ok (.items l), lc1, st1) => rw [hr] at h1; simpa using h1
        | (.error err, lc1, st1) => rw [hr] at h1; simpa using h1
    | .subexpr meta e cv lc =>
      simp only [outEval]
      by_cases hl : meta.captured_variables.length ≠ cv.length
      · rw [if_pos hl]; exact h
      · rw [if_neg hl]
        match ha : lcAssignLoop lc
          ((meta.captured_variables.drop meta.fixed_query_variables.length).zip
            (cv.drop meta.fixed_query_variables.length)) with
        | (.error err, lc') => simp only [ha]; exact h
        | (.ok u, lc') =>
          simp only [ha]
          have h1 := ih top reg (.expr e lc') st name h
          match hr : outEval f top reg (.expr e lc') st with
          | (.ok (.val v), lc'', st') =>
            rw [hr] at h1
            match hd : lcDeleteLoop lc''
              (meta.captured_variables.drop meta.fixed_query_variables.length) with
            | (.ok u2, lc3) => simp only [hd]; simpa using h1
            | (.error err, lc3) => simp only [hd]; simpa using h1
          | (.ok (.vals l), lc'', st') => rw [hr] at h1; simpa using h1
          | (.ok (.pairs l), lc'', st') => rw [hr] at h1; simpa using h1
          | (.ok (.items l), lc'', st') => rw [hr] at h1; simpa using h1
          | (.error err, lc'', st') => rw [hr] at h1; simpa using h1
    | .elems meta content tuples lc =>
      match tuples with
      | [] => simpa [outEval] using h
      | cv :: rest =>
        simp only [outEval]
        have h1 := ih top reg (.subexpr meta content cv lc) st name h
        match hr : outEval f top reg (.subexpr meta content cv lc) st with
        | (.ok (.val v), lc1, st1) =>
          rw [hr] at h1
          simp only []
          have h2 := ih top reg (.elems meta content rest lc1) st1 name h1
          match hr2 : outEval f top reg (.elems meta content rest lc1) st1 with
          | (.ok (.val v2), lc2, st2) => rw [hr2] at h2; simpa using h2
          | (.ok (.vals l), lc2, st2) => rw [hr2] at h2; simpa using h2
          | (.ok (.pairs l), lc2, st2) => rw [hr2] at h2; simpa using h2
          | (.ok (.items l), lc2, st2) => rw [hr2] at h2; simpa using h2
          | (.error err, lc2, st2) => rw [hr2] at h2; simpa using h2
        | (.ok (.vals l), lc1, st1) => rw [hr] at h1; simpa using h1
        | (.ok (.pairs l), lc1, st1) => rw [hr] at h1; simpa using h1
        | (.ok (.items l), lc1, st1) => rw [hr] at h1; simpa using h1
        | (.error err, lc1, st1) => rw [hr] at h1; simpa using h1
    | .seqPairs meta content pos tuples lc =>
      match tuples with
      | [] => simpa [outEval] using h
      | cv :: rest =>
        simp only [outEval]
        match hi : index_for pos cv with
        | .error err => simp only [hi]; exact h
        | .ok i =>
          simp only [hi]
          have h1 := ih top reg (.subexpr meta content cv lc) st name h
          match hr : outEval f top reg (.subexpr meta content cv lc) st with
          | (.ok (.val v), lc1, st1) =>
            rw [hr] at h1
            simp only []
            have h2 := ih top reg (.seqPairs meta content pos rest lc1) st1 name h1
            match hr2 : outEval f top reg (.seqPairs meta content pos rest lc1) st1 with
            | (.ok (.val v2), lc2, st2) => rw [hr2] at h2; simpa using h2
            | (.ok (.vals l), lc2, st2) => rw [hr2] at h2; simpa using h2
            | (.ok (.pairs l), lc2, st2) => rw [hr2] at h2; simpa using h2
            | (.ok (.items l), lc2, st2) => rw [hr2] at h2; simpa using h2
            | (.error err, lc2, st2) => rw [hr2] at h2; simpa using h2
          | (.ok (.vals l), lc1, st1) => rw [hr] at h1; simpa using h1
          | (.ok (.pairs l), lc1, st1) => rw [hr] at h1; simpa using h1
          | (.ok (.items l), lc1, st1) => rw [hr] at h1; simpa using h1
          | (.error err, lc1, st1) => rw [hr] at h1; simpa using h1
    | .dictItems meta content key tuples d lc =>
      match tuples with
      | [] => simpa [outEval] using h
      | cv :: rest =>
        simp only [outEval]
        have h1 := ih top reg (.subexpr meta key cv lc) st name h
        match hr : outEval f top reg (.subexpr meta key cv lc) st with
        | (.ok (.val k), lc1, st1) =>
          rw [hr] at h1
          by_cases hk : vdictHasKey (f + 1) d k = true
          · simpa [hk] using h1
          · simp only [hk, Bool.false_eq_true, if_false, ite_false]
            have h2 := ih top reg (.subexpr meta content cv lc1) st1 name h1
            match hr2 : outEval f top reg (.subexpr meta content cv lc1) st1 with
            | (.ok (.val v), lc2, st2) =>
              rw [hr2] at h2
              exact ih top reg (.dictItems meta content key rest (d ++ [(k, v)]) lc2) st2 name h2
            | (.ok (.vals l), lc2, st2) => rw [hr2] at h2; simpa using h2
            | (.ok (.pairs l), lc2, st2) => rw [hr2] at h2; simpa using h2
            | (.ok (.items l), lc2, st2) => rw [hr2] at h2; simpa using h2
            | (.error err, lc2, st2) => rw [hr2] at h2; simpa using h2
        | (.ok (.vals l), lc1, st1) => rw [hr] at h1; simpa using h1
        | (.ok (.pairs l), lc1, st1) => rw [hr] at h1; simpa using h1
        | (.ok (.items l), lc1, st1) => rw [hr] at h1; simpa using h1
        | (.error err, lc1, st1) => rw [hr] at h1; simpa using h1

/-! ## C5: the per-name memo state machine of `OutputResult.get_object` -/

/-- The toplevel of `OUTPUT \x7b x = &y; y = &x; \x7d`. -/
def topC5 : Toplevel := [("x", Expr.ref "y"), ("y", Expr.ref "x")]

/-- The memo state after the failed dereference of `x` on `topC5`:
both names are stuck at the in-progress sentinel. -/
def stC5 : OutState := { objs := [("x", .inProgress), ("y", .inProgress)], ans := some [] }

/-- C5, counterexample to "raises it again identically": for
`OUTPUT \x7b x = &y; y = &x; \x7d`, dereferencing `x` raises
CircularReferenceError naming `x`, and a second dereference via the other
name `y` raises CircularReferenceError naming `y` — the same exception
class, but not an identical error: the two errors carry different names
(Python formats the resolved name into the message,
`output.py` line 35). -/
theorem C5_counterexample :
    get_object 10 topC5 [] "x" (freshState []) = (.error (.circularRef "x"), stC5)
    ∧ get_object 10 topC5 [] "y" stC5 = (.error (.circularRef "y"), stC5)
    ∧ (OutErr.circularRef "y") ≠ (OutErr.circularRef "x") := by
  refine ⟨rfl, rfl, ?_⟩
  intro h
  injection h with h1
  exact absurd h1 (by decide)

/-- C5 (amended): `OutputResult.get_object` maintains a per-name
three-state memo: (a) a name absent from the memo and from the toplevel
raises UndefinedNameError; (b) a name whose memo entry is the in-progress
sentinel raises CircularReferenceError; (c) a resolved name returns its
memoised value without touching the state; (d) a first `get` of an
unresolved toplevel name evaluates its expression with the sentinel
installed (UNRESOLVED → IN_PROGRESS) and, on success, overwrites the
sentinel with the resolved value (→ RESOLVED), releasing the answer set
exactly when the memo size reaches the toplevel size. For
`OUTPUT \x7b x = &y; y = &x; \x7d`, dereferencing `x` raises
CircularReferenceError (naming `x`, and leaving both names at the
sentinel), and a second dereference via `y` raises CircularReferenceError
again, this time naming `y`. -/
theorem C5_memo :
    (∀ (fuel : Nat) (top : Toplevel) (reg : Registry) (n : String) (st : OutState),
      (objsLookup st.objs n = none → Toplevel.get top n = none →
        get_object (fuel + 1) top reg n st = (.error (.undefinedName n), st))
      ∧ (objsLookup st.objs n = some .inProgress →
        get_object (fuel + 1) top reg n st = (.error (.circularRef n), st))
      ∧ (∀ v, objsLookup st.objs n = some (.resolved v) →
        get_object (fuel + 1) top reg n st = (.ok v, st))
      ∧ (∀ e v lc2 st2, objsLookup st.objs n = none → Toplevel.get top n = some e →
        outEval fuel top reg (.expr e [])
          { st with objs := objsInsert st.objs n .inProgress } = (.ok (.val v), lc2, st2) →
        get_object (fuel + 1) top reg n st =
          (.ok v,
            if top.length = (objsInsert st2.objs n (.resolved v)).length
            then { objs := objsInsert st2.objs n (.resolved v), ans := none }
            else { objs := objsInsert st2.objs n (.resolved v), ans := st2.ans })))
    ∧ get_object 10 topC5 [] "x" (freshState []) = (.error (.circularRef "x"), stC5)
    ∧ get_object 10 topC5 [] "y" stC5 = (.error (.circularRef "y"), stC5) := by
  refine ⟨?_, rfl, rfl⟩
  intro fuel top reg n st
  refine ⟨?_, ?_, ?_, ?_⟩
  · intro ha hb; simp [get_object, outEval, ha, hb]
  · intro hb; simp [get_object, outEval, hb]
  · intro v hc; simp [get_object, outEval, hc]
  · intro e v lc2 st2 ha he hr
    by_cases hlen : top.length = (objsInsert st2.objs n (.resolved v)).length
    · simp [get_object, outEval, ha, he, hr, hlen]
    · simp [get_object, outEval, ha, he, hr, hlen]

/-! ## LocalContext stack lemmas -/

theorem LC.get_append (a b : List (String × String)) (k : String) :
    LC.get (a ++ b) k = ((LC.get a k).or (LC.get b k)) := by
  induction a with
  | nil => simp [LC.get]
  | cons p rest ih =>
    cases p with
    | mk k' v =>
      by_cases hk : k' = k
      · simp [LC.get, hk]
      · simp [LC.get, hk, ih]

theorem LC.has_append (a b : List (String × String)) (k : String) :
    LC.has (a ++ b) k = (LC.has a k || LC.has b k) := by
  simp only [LC.has, LC.get_append]
  cases LC.get a k <;> simp [Option.or]

theorem LC.insert_fresh (lc : List (String × String)) (n : String) (v : String)
    (h : LC.has lc n = false) : LC.insert lc n v = lc ++ [(n, v)] := by
  induction lc with
  | nil => simp [LC.insert]
  | cons p rest ih =>
    cases p with
    | mk k w =>
      have hk : ¬ (k = n) := by
        intro hkn
        simp [LC.has, LC.get, hkn] at h
      simp only [LC.insert, hk, if_false, List.cons_append, ite_false]
      congr 1
      exact ih (by simpa [LC.has, LC.get, hk] using h)

theorem LC.remove_append_fresh (lc : List (String × String)) (n v : String)
    (tail : List (String × String)) (h : LC.has lc n = false) :
    LC.remove (lc ++ (n, v) :: tail) n = lc ++ tail := by
  induction lc with
  | nil => simp [LC.remove]
  | cons p rest ih =>
    cases p with
    | mk k w =>
      have hk : ¬ (k = n) := by
        intro hkn
        simp [LC.has, LC.get, hkn] at h
      simp only [List.cons_append, LC.remove, hk, if_false, ite_false]
      congr 1
      exact ih (by simpa [LC.has, LC.get, hk] using h)

theorem lcAssign_char :
    ∀ (pairs : List (String × String)) (lc : List (String × String)) (u : Unit)
      (lc₂ : List (String × String)),
      lcAssignLoop lc pairs = (.ok u, lc₂) →
      lc₂ = lc ++ pairs ∧ (∀ k ∈ pairs.map Prod.fst, LC.has lc k = false)
        ∧ (pairs.map Prod.fst).Nodup := by
  intro pairs
  induction pairs with
  | nil =>
    intro lc u lc₂ h
    simp only [lcAssignLoop] at h
    injection h with h1 h2
    simp [h2]
  | cons p rest ih =>
    intro lc u lc₂ h
    cases p with
    | mk n v =>
      simp only [lcAssignLoop] at h
      by_cases hn : LC.has lc n = true
      · rw [if_pos hn] at h; cases h
      · have hnf : LC.has lc n = false := by simpa using hn
        rw [if_neg hn] at h
        rw [LC.insert_fresh lc n v hnf] at h
        obtain ⟨h1, h2, h3⟩ := ih (lc ++ [(n, v)]) u lc₂ h
        refine ⟨by simpa using h1, ?_, ?_⟩
        · intro k hk
          simp only [List.map_cons, List.mem_cons] at hk
          rcases hk with hk | hk
          · rw [hk]; exact hnf
          · have hkk := h2 k hk
            rw [LC.has_append] at hkk
            exact (Bool.or_eq_false_iff.mp hkk).1
        · simp only [List.map_cons, List.nodup_cons]
          refine ⟨?_, h3⟩
          intro hmem
          have hkk := h2 n hmem
          rw [LC.has_append] at hkk
          have hb := (Bool.or_eq_false_iff.mp hkk).2
          simp [LC.has, LC.get] at hb

theorem lcDelete_append :
    ∀ (pairs : List (String × String)) (lc : List (String × String)),
      (∀ k ∈ pairs.map Prod.fst, LC.has lc k = false) →
      (pairs.map Prod.fst).Nodup →
      lcDeleteLoop (lc ++ pairs) (pairs.map Prod.fst) = (.ok (), lc) := by
  intro pairs
  induction pairs with
  | nil => intro lc _ _; simp [lcDeleteLoop]
  | cons p rest ih =>
    intro lc hfresh hnodup
    cases p with
    | mk n v =>
      simp only [List.map_cons] at hfresh hnodup ⊢
      have hn : LC.has lc n = false := hfresh n (by simp)
      have hhas : LC.has (lc ++ (n, v) :: rest) n = true := by
        rw [LC.has_append]
        simp [LC.has, LC.get]
      simp only [lcDeleteLoop, hhas, if_true, ite_true,
        LC.remove_append_fresh lc n v rest hn]
      exact ih lc (fun k hk => hfresh k (by simp [hk])) hnodup.of_cons

theorem lcAssign_then_delete
    (pairs : List (String × String)) (lc : List (String × String)) (u : Unit)
    (lc₂ : List (String × String))
    (h : lcAssignLoop lc pairs = (.ok u, lc₂)) :
    lcDeleteLoop lc₂ (pairs.map Prod.fst) = (.ok (), lc) := by
  obtain ⟨h1, h2, h3⟩ := lcAssign_char pairs lc u lc₂ h
  rw [h1]
  exact lcDelete_append pairs lc h2 h3

theorem outEval_lc_restore :
    ∀ (fuel : Nat) (top : Toplevel) (reg : Registry) (req : EvalReq) (st : OutState)
      (out : EvalOut) (lc' : LC) (st' : OutState),
      outEval fuel top reg req st = (.ok out, lc', st') → lc' = req.lcOf := by
  intro fuel
  induction fuel with
  | zero =>
    intro top reg req st out lc' st' h
    simp [outEval] at h
  | succ f ih =>
    intro top reg req st out lc' st' h
    match req with
    | .expr e lc =>
      match e with
      | .constInt i =>
        simp only [outEval, Prod.mk.injEq] at h
        exact h.2.1.symm
      | .constStr s =>
        simp only [outEval, Prod.mk.injEq] at h
        exact h.2.1.symm
      | .ref n =>
        simp only [outEval] at h
        match hr : outEval f top reg (.obj n) st with
        | (.ok (.val v), lc2, st2) =>
          rw [hr] at h
          simp only [Prod.mk.injEq] at h
          exact h.2.1.symm
        | (.ok (.vals l), lc2, st2) => rw [hr] at h; simp at h
        | (.ok (.pairs l), lc2, st2) => rw [hr] at h; simp at h
        | (.ok (.items l), lc2, st2) => rw [hr] at h; simp at h
        | (.error err, lc2, st2) => rw [hr] at h; simp at h
      | .evar n =>
        match hl : LC.get lc n with
        | some v =>
          simp only [outEval, hl, Prod.mk.injEq] at h
          exact h.2.1.symm
        | none => simp only [outEval, hl] at h; simp at h
      | .object ctor args =>
        match ctor with
        | some cname =>
          by_cases hc : List.contains reg cname = true
          · simp only [outEval, hc, reduceIte] at h
            match hr : outEval f top reg (.args args lc) st with
            | (.ok (.vals vs), lc2, st2) =>
              rw [hr] at h
              simp only [Prod.mk.injEq] at h
              rw [← h.2.1]
              exact ih top reg (.args args lc) st (.vals vs) lc2 st2 hr
            | (.ok (.val v), lc2, st2) => rw [hr] at h; simp at h
            | (.ok (.pairs l), lc2, st2) => rw [hr] at h; simp at h
            | (.ok (.items l), lc2, st2) => rw [hr] at h; simp at h
            | (.error err, lc2, st2) => rw [hr] at h; simp at h
          · have hc2 : List.contains reg cname = false := by simpa using hc
            simp only [outEval, hc2, Bool.false_eq_true, reduceIte] at h
            simp at h
        | none =>
          simp only [outEval] at h
          match hr : outEval f top reg (.args args lc) st with
          | (.ok (.vals vs), lc2, st2) =>
            rw [hr] at h
            simp only [Prod.mk.injEq] at h
            rw [← h.2.1]
            exact ih top reg (.args args lc) st (.vals vs) lc2 st2 hr
          | (.ok (.val v), lc2, st2) => rw [hr] at h; simp at h
          | (.ok (.pairs l), lc2, st2) => rw [hr] at h; simp at h
          | (.ok (.items l), lc2, st2) => rw [hr] at h; simp at h
          | (.error err, lc2, st2) => rw [hr] at h; simp at h
      | .eset meta content =>
        simp only [outEval] at h
        match hg : getCapturedValues meta lc st with
        | .error err => rw [hg] at h; simp at h
        | .ok tuples =>
          rw [hg] at h
          simp only [] at h
          match hr : outEval f top reg (.elems meta content tuples lc) st with
          | (.ok (.vals vs), lc2, st2) =>
            rw [hr] at h
            simp only [Prod.mk.injEq] at h
            rw [← h.2.1]
            exact ih top reg (.elems meta content tuples lc) st (.vals vs) lc2 st2 hr
          | (.ok (.val v), lc2, st2) => rw [hr] at h; simp at h
          | (.ok (.pairs l), lc2, st2) => rw [hr] at h; simp at h
          | (.ok (.items l), lc2, st2) => rw [hr] at h; simp at h
          | (.error err, lc2, st2) => rw [hr] at h; simp at h
      | .eseq meta content ivar =>
        simp only [outEval] at h
        match hg : getCapturedValues meta lc st with
        | .error err => rw [hg] at h; simp at h
        | .ok tuples =>
          rw [hg] at h
          simp only [] at h
          match hi : listIdxOf ivar meta.captured_variables with
          | none => rw [hi] at h; simp at h
          | some pos =>
            rw [hi] at h
            simp only [] at h
            match hv : indexValues pos tuples with
            | .error err => rw [hv] at h; simp at h
            | .ok idxs =>
              rw [hv] at h
              simp only [] at h
              by_cases hs : sortInts idxs = rangeInts tuples.length
              · rw [if_neg (by simpa using hs)] at h
                match hr : outEval f top reg (.seqPairs meta content pos tuples lc) st with
                | (.ok (.pairs xs), lc2, st2) =>
                  rw [hr] at h
                  simp only [Prod.mk.injEq] at h
                  rw [← h.2.1]
                  exact ih top reg (.seqPairs meta content pos tuples lc) st (.pairs xs) lc2 st2 hr
                | (.ok (.val v), lc2, st2) => rw [hr] at h; simp at h
                | (.ok (.vals l), lc2, st2) => rw [hr] at h; simp at h
                | (.ok (.items l), lc2, st2) => rw [hr] at h; simp at h
                | (.error err, lc2, st2) => rw [hr] at h; simp at h
              · rw [if_pos (by simpa using hs)] at h
                simp at h
      | .edict meta content key =>
        simp only [outEval] at h
        match hg : getCapturedValues meta lc st with
        | .error err => rw [hg] at h; simp at h
        | .ok tuples =>
          rw [hg] at h
          simp only [] at h
          match hr : outEval f top reg (.dictItems meta content key tuples [] lc) st with
          | (.ok (.items dd), lc2, st2) =>
            rw [hr] at h
            simp only [Prod.mk.injEq] at h
            rw [← h.2.1]
            exact ih top reg (.dictItems meta content key tuples [] lc) st (.items dd) lc2 st2 hr
          | (.ok (.val v), lc2, st2) => rw [hr] at h; simp at h
          | (.ok (.vals l), lc2, st2) => rw [hr] at h; simp at h
          | (.ok (.pairs l), lc2, st2) => rw [hr] at h; simp at h
          | (.error err, lc2, st2) => rw [hr] at h; simp at h
    | .obj n =>
      simp only [outEval] at h
      match ho : objsLookup st.objs n with
      | some .inProgress => rw [ho] at h; simp at h
      | some (.resolved v) =>
        rw [ho] at h
        simp only [Prod.mk.injEq] at h
        exact h.2.1.symm
      | none =>
        rw [ho] at h
        simp only [] at h
        match ht : Toplevel.get top n with
        | none => rw [ht] at h; simp at h
        | some e =>
          rw [ht] at h
          simp only [] at h
          match hr : outEval f top reg (.expr e [])
            { st with objs := objsInsert st.objs n .inProgress } with
          | (.ok (.val v), lc2, st2) =>
            rw [hr] at h
            simp at h
            exact h.2.1.symm
          | (.ok (.vals l), lc2, st2) => rw [hr] at h; simp at h
          | (.ok (.pairs l), lc2, st2) => rw [hr] at h; simp at h
          | (.ok (.items l), lc2, st2) => rw [hr] at h; simp at h
          | (.error err, lc2, st2) => rw [hr] at h; simp at h
    | .args es lc =>
      match es with
      | [] =>
        simp only [outEval, Prod.mk.injEq] at h
        exact h.2.1.symm
      | e :: rest =>
        simp only [outEval] at h
        match hr : outEval f top reg (.expr e lc) st with
        | (.ok (.val v), lc1, st1) =>
          rw [hr] at h
          simp only [] at h
          have hlc1 : lc1 = lc := ih top reg (.expr e lc) st (.val v) lc1 st1 hr
          match hr2 : outEval f top reg (.args rest lc1) st1 with
          | (.ok (.vals vs), lc2, st2) =>
            rw [hr2] at h
            simp only [Prod.mk.injEq] at h
            have hlc2 : lc2 = lc1 := ih top reg (.args rest lc1) st1 (.vals vs) lc2 st2 hr2
            rw [← h.2.1, hlc2, hlc1]
            rfl
          | (.ok (.val v2), lc2, st2) => rw [hr2] at h; simp at h
          | (.ok (.pairs l), lc2, st2) => rw [hr2] at h; simp at h
          | (.ok (.items l), lc2, st2) => rw [hr2] at h; simp at h
          | (.error err, lc2, st2) => rw [hr2] at h; simp at h
        | (.ok (.vals l), lc1, st1) => rw [hr] at h; simp at h
        | (.ok (.pairs l), lc1, st1) => rw [hr] at h; simp at h
        | (.ok (.items l), lc1, st1) => rw [hr] at h; simp at h
        | (.error err, lc1, st1) => rw [hr] at h; simp at h
    | .subexpr meta e cv lc =>
      by_cases hl : meta.captured_variables.length ≠ cv.length
      · simp only [outEval, if_pos hl] at h; simp at h
      · simp only [outEval, if_neg hl] at h
        match ha : lcAssignLoop lc
          ((meta.captured_variables.drop meta.fixed_query_variables.length).zip
            (cv.drop meta.fixed_query_variables.length)) with
        | (.error err, lcA) => rw [ha] at h; simp at h
        | (.ok u, lcA) =>
          rw [ha] at h
          simp only [] at h
          match hr : outEval f top reg (.expr e lcA) st with
          | (.ok (.val v), lcB, stB) =>
            rw [hr] at h
            simp only [] at h
            have hlcB : lcB = lcA := ih top reg (.expr e lcA) st (.val v) lcB stB hr
            have hlen : (meta.captured_variables.drop meta.fixed_query_variables.length).length
                ≤ (cv.drop meta.fixed_query_variables.length).length := by
              simp only [not_not] at hl
              simp [hl]
            have hdel : lcDeleteLoop lcB
                (meta.captured_variables.drop meta.fixed_query_variables.length)
                = (.ok (), lc) := by
              rw [hlcB]
              have hmf := List.map_fst_zip
                (meta.captured_variables.drop meta.fixed_query_variables.length)
                (cv.drop meta.fixed_query_variables.length) hlen
              rw [← hmf]
              exact lcAssign_then_delete _ lc u lcA ha
            rw [hdel] at h
            simp only [Prod.mk.injEq] at h
            exact h.2.1.symm
          | (.ok (.vals l), lcB, stB) => rw [hr] at h; simp at h
          | (.ok (.pairs l), lcB, stB) => rw [hr] at h; simp at h
          | (.ok (.items l), lcB, stB) => rw [hr] at h; simp at h
          | (.error err, lcB, stB) => rw [hr] at h; simp at h
    | .elems meta content tuples lc =>
      match tuples with
      | [] =>
        simp only [outEval, Prod.mk.injEq] at h
        exact h.2.1.symm
      | cv :: rest =>
        simp only [outEval] at h
        match hr : outEval f top reg (.subexpr meta content cv lc) st with
        | (.ok (.val v), lc1, st1) =>
          rw [hr] at h
          simp only [] at h
          have hlc1 : lc1 = lc := ih top reg (.subexpr meta content cv lc) st (.val v) lc1 st1 hr
          match hr2 : outEval f top reg (.elems meta content rest lc1) st1 with
          | (.ok (.vals vs), lc2, st2) =>
            rw [hr2] at h
            simp only [Prod.mk.injEq] at h
            have hlc2 : lc2 = lc1 := ih top reg (.elems meta content rest lc1) st1 (.vals vs) lc2 st2 hr2
            rw [← h.2.1, hlc2, hlc1]
            rfl
          | (.ok (.val v2), lc2, st2) => rw [hr2] at h; simp at h
          | (.ok (.pairs l), lc2, st2) => rw [hr2] at h; simp at h
          | (.ok (.items l), lc2, st2) => rw [hr2] at h; simp at h
          | (.error err, lc2, st2) => rw [hr2] at h; simp at h
        | (.ok (.vals l), lc1, st1) => rw [hr] at h; simp at h
        | (.ok (.pairs l), lc1, st1) => rw [hr] at h; simp at h
        | (.ok (.items l), lc1, st1) => rw [hr] at h; simp at h
        | (.error err, lc1, st1) => rw [hr] at h; simp at h
    | .seqPairs meta content pos tuples lc =>
      match tuples with
      | [] =>
        simp only [outEval, Prod.mk.injEq] at h
        exact h.2.1.symm
      | cv :: rest =>
        simp only [outEval] at h
        match hi : index_for pos cv with
        | .error err => rw [hi] at h; simp at h
        | .ok i =>
          rw [hi] at h
          simp only [] at h
          match hr : outEval f top reg (.subexpr meta content cv lc) st with
          | (.ok (.val v), lc1, st1) =>
            rw [hr] at h
            simp only [] at h
            have hlc1 : lc1 = lc := ih top reg (.subexpr meta content cv lc) st (.val v) lc1 st1 hr
            match hr2 : outEval f top reg (.seqPairs meta content pos rest lc1) st1 with
            | (.ok (.pairs xs), lc2, st2) =>
              rw [hr2] at h
              simp only [Prod.mk.injEq] at h
              have hlc2 : lc2 = lc1 := ih top reg (.seqPairs meta content pos rest lc1) st1 (.pairs xs) lc2 st2 hr2
              rw [← h.2.1, hlc2, hlc1]
              rfl
            | (.ok (.val v2), lc2, st2) => rw [hr2] at h; simp at h
            | (.ok (.vals l), lc2, st2) => rw [hr2] at h; simp at h
            | (.ok (.items l), lc2, st2) => rw [hr2] at h; simp at h
            | (.error err, lc2, st2) => rw [hr2] at h; simp at h
          | (.ok (.vals l), lc1, st1) => rw [hr] at h; simp at h
          | (.ok (.pairs l), lc1, st1) => rw [hr] at h; simp at h
          | (.ok (.items l), lc1, st1) => rw [hr] at h; simp at h
          | (.error err, lc1, st1) => rw [hr] at h; simp at h
    | .dictItems meta content key tuples d lc =>
      match tuples with
      | [] =>
        simp only [outEval, Prod.mk.injEq] at h
        exact h.2.1.symm
      | cv :: rest =>
        simp only [outEval] at h
        match hr : outEval f top reg (.subexpr meta key cv lc) st with
        | (.ok (.val kv), lc1, st1) =>
          rw [hr] at h
          simp only [] at h
          have hlc1 : lc1 = lc := ih top reg (.subexpr meta key cv lc) st (.val kv) lc1 st1 hr
          by_cases hdup : vdictHasKey (f + 1) d kv = true
          · rw [if_pos hdup] at h; simp at h
          · rw [if_neg hdup] at h
            match hr2 : outEval f top reg (.subexpr meta content cv lc1) st1 with
            | (.ok (.val v), lc2, st2) =>
              rw [hr2] at h
              simp only [] at h
              have hlc2 : lc2 = lc1 := ih top reg (.subexpr meta content cv lc1) st1 (.val v) lc2 st2 hr2
              have hlc3 : lc' = lc2 :=
                ih top reg (.dictItems meta content key rest (d ++ [(kv, v)]) lc2) st2 out lc' st' h
              rw [hlc3, hlc2, hlc1]
              rfl
            | (.ok (.vals l), lc2, st2) => rw [hr2] at h; simp at h
            | (.ok (.pairs l), lc2, st2) => rw [hr2] at h; simp at h
            | (.ok (.items l), lc2, st2) => rw [hr2] at h; simp at h
            | (.error err, lc2, st2) => rw [hr2] at h; simp at h
        | (.ok (.vals l), lc1, st1) => rw [hr] at h; simp at h
        | (.ok (.pairs l), lc1, st1) => rw [hr] at h; simp at h
        | (.ok (.items l), lc1, st1) => rw [hr] at h; simp at h
        | (.error err, lc1, st1) => rw [hr] at h; simp at h

/-! ## Reference-free expressions evaluate independently of the memo table -/

/-- Expressions containing no `Reference` node: evaluating them never
calls back into `get_object`, hence never reads or writes the memo. -/
inductive RefFree : Expr → Prop where
  | constInt (i : Int) : RefFree (.constInt i)
  | constStr (s : String) : RefFree (.constStr s)
  | evar (n : String) : RefFree (.evar n)
  | object (ctor : Option String) (args : List Expr) :
      (∀ e ∈ args, RefFree e) → RefFree (.object ctor args)
  | eset (meta : CollMeta) (c : Expr) : RefFree c → RefFree (.eset meta c)
  | eseq (meta : CollMeta) (c : Expr) (ivar : String) :
      RefFree c → RefFree (.eseq meta c ivar)
  | edict (meta : CollMeta) (c k : Expr) :
      RefFree c → RefFree k → RefFree (.edict meta c k)

/-- Requests whose expressions are all reference-free. -/
def ReqRefFree : EvalReq → Prop
  | .expr e _ => RefFree e
  | .obj _ => False
  | .args es _ => ∀ e ∈ es, RefFree e
  | .subexpr _ e _ _ => RefFree e
  | .elems _ c _ _ => RefFree c
  | .seqPairs _ c _ _ _ => RefFree c
  | .dictItems _ c k _ _ _ => RefFree c ∧ RefFree k

theorem getCapturedValues_ans_congr (meta : CollMeta) (lc : LC) {s t : OutState}
    (h : s.ans = t.ans) :
    getCapturedValues meta lc s = getCapturedValues meta lc t := by
  simp [getCapturedValues, h]

/-- Evaluating a reference-free request leaves the state untouched and
produces the same result and local context on any two states that carry
the same raw answer set. -/
theorem outEval_refFree :
    ∀ (fuel : Nat) (top : Toplevel) (reg : Registry) (req : EvalReq)
      (s t : OutState), ReqRefFree req → s.ans = t.ans →
      ∃ r lc', outEval fuel top reg req s = (r, lc', s)
        ∧ outEval fuel top reg req t = (r, lc', t) := by
  intro fuel
  induction fuel with
  | zero =>
    intro top reg req s t _ _
    exact ⟨.error .outOfFuel, req.lcOf, rfl, rfl⟩
  | succ f ih =>
    intro top reg req s t hrf hans
    match req with
    | .expr e lc =>
      match e with
      | .constInt i => exact ⟨.ok (.val (.int i)), lc, rfl, rfl⟩
      | .constStr str => exact ⟨.ok (.val (.str str)), lc, rfl, rfl⟩
      | .ref n => exact absurd hrf (by intro h; cases h)
      | .evar n =>
        match hl : LC.get lc n with
        | some v => exact ⟨.ok (.val (.str v)), lc, by simp [outEval, hl], by simp [outEval, hl]⟩
        | none => exact ⟨.error .assertionFail, lc, by simp [outEval, hl], by simp [outEval, hl]⟩
      | .object ctor args =>
        have hargs : ∀ a ∈ args, RefFree a := by cases hrf with | object _ _ h => exact h
        obtain ⟨r, lc', h1, h2⟩ := ih top reg (.args args lc) s t hargs hans
        match ctor with
        | some cname =>
          by_cases hc : List.contains reg cname = true
          · refine ?_
            match r with
            | .ok (.val v) =>
              exact ⟨.error .assertionFail, lc',
                by simp only [outEval, hc, reduceIte]; simp [h1],
                by simp only [outEval, hc, reduceIte]; simp [h2]⟩
            | .ok (.vals vs) =>
              exact ⟨.ok (.val (.ctorApp cname vs)), lc',
                by simp only [outEval, hc, reduceIte]; simp [h1],
                by simp only [outEval, hc, reduceIte]; simp [h2]⟩
            | .ok (.pairs l) =>
              exact ⟨.error .assertionFail, lc',
                by simp only [outEval, hc, reduceIte]; simp [h1],
                by simp only [outEval, hc, reduceIte]; simp [h2]⟩
            | .ok (.items l) =>
              exact ⟨.error .assertionFail, lc',
                by simp only [outEval, hc, reduceIte]; simp [h1],
                by simp only [outEval, hc, reduceIte]; simp [h2]⟩
            | .error err =>
              exact ⟨.error err, lc',
                by simp only [outEval, hc, reduceIte]; simp [h1],
                by simp only [outEval, hc, reduceIte]; simp [h2]⟩
          · have hc2 : List.contains reg cname = false := by simpa using hc
            exact ⟨.error .notImplementedCtor, lc,
              by simp only [outEval, hc2, Bool.false_eq_true, reduceIte],
              by simp only [outEval, hc2, Bool.false_eq_true, reduceIte]⟩
        | none =>
          match r with
          | .ok (.val v) =>
            exact ⟨.error .assertionFail, lc', by simp [outEval, h1], by simp [outEval, h2]⟩
          | .ok (.vals vs) =>
            exact ⟨.ok (.val (.tup vs)), lc', by simp [outEval, h1], by simp [outEval, h2]⟩
          | .ok (.pairs l) =>
            exact ⟨.error .assertionFail, lc', by simp [outEval, h1], by simp [outEval, h2]⟩
          | .ok (.items l) =>
            exact ⟨.error .assertionFail, lc', by simp [outEval, h1], by simp [outEval, h2]⟩
          | .error err =>
            exact ⟨.error err, lc', by simp [outEval, h1], by simp [outEval, h2]⟩
      | .eset meta content =>
        have hc : RefFree content := by cases hrf with | eset _ _ h => exact h
        have hgc := getCapturedValues_ans_congr meta lc hans
        match hg : getCapturedValues meta lc t with
        | .error err =>
          rw [hg] at hgc
          exact ⟨.error err, lc, by simp [outEval, hgc], by simp [outEval, hg]⟩
        | .ok tuples =>
          rw [hg] at hgc
          obtain ⟨r, lc', h1, h2⟩ := ih top reg (.elems meta content tuples lc) s t hc hans
          match r with
          | .ok (.val v) =>
            exact ⟨.error .assertionFail, lc', by simp [outEval, hgc, h1], by simp [outEval, hg, h2]⟩
          | .ok (.vals vs) =>
            exact ⟨.ok (.val (.vset (dedupValues (f + 1) vs))), lc',
              by simp [outEval, hgc, h1], by simp [outEval, hg, h2]⟩
          | .ok (.pairs l) =>
            exact ⟨.error .assertionFail, lc', by simp [outEval, hgc, h1], by simp [outEval, hg, h2]⟩
          | .ok (.items l) =>
            exact ⟨.error .assertionFail, lc', by simp [outEval, hgc, h1], by simp [outEval, hg, h2]⟩
          | .error err =>
            exact ⟨.error err, lc', by simp [outEval, hgc, h1], by simp [outEval, hg, h2]⟩
      | .eseq meta content ivar =>
        have hc : RefFree content := by cases hrf with | eseq _ _ _ h => exact h
        have hgc := getCapturedValues_ans_congr meta lc hans
        match hg : getCapturedValues meta lc t with
        | .error err =>
          rw [hg] at hgc
          exact ⟨.error err, lc, by simp [outEval, hgc], by simp [outEval, hg]⟩
        | .ok tuples =>
          rw [hg] at hgc
          match hi : listIdxOf ivar meta.captured_variables with
          | none =>
            exact ⟨.error .assertionFail, lc, by simp [outEval, hgc, hi], by simp [outEval, hg, hi]⟩
          | some pos =>
            match hv : indexValues pos tuples with
            | .error err =>
              exact ⟨.error err, lc, by simp [outEval, hgc, hi, hv], by simp [outEval, hg, hi, hv]⟩
            | .ok idxs =>
              by_cases hs : sortInts idxs = rangeInts tuples.length
              · obtain ⟨r, lc', h1, h2⟩ := ih top reg (.seqPairs meta content pos tuples lc) s t hc hans
                match r with
                | .ok (.val v) =>
                  exact ⟨.error .assertionFail, lc',
                    by simp [outEval, hgc, hi, hv, hs, h1], by simp [outEval, hg, hi, hv, hs, h2]⟩
                | .ok (.vals vs) =>
                  exact ⟨.error .assertionFail, lc',
                    by simp [outEval, hgc, hi, hv, hs, h1], by simp [outEval, hg, hi, hv, hs, h2]⟩
                | .ok (.pairs xs) =>
                  exact ⟨.ok (.val (.vseq ((sortPairs xs).map Prod.snd))), lc',
                    by simp [outEval, hgc, hi, hv, hs, h1], by simp [outEval, hg, hi, hv, hs, h2]⟩
                | .ok (.items l) =>
                  exact ⟨.error .assertionFail, lc',
                    by simp [outEval, hgc, hi, hv, hs, h1], by simp [outEval, hg, hi, hv, hs, h2]⟩
                | .error err =>
                  exact ⟨.error err, lc',
                    by simp [outEval, hgc, hi, hv, hs, h1], by simp [outEval, hg, hi, hv, hs, h2]⟩
              · exact ⟨.error .invalidIndices, lc,
                  by simp [outEval, hgc, hi, hv, hs], by simp [outEval, hg, hi, hv, hs]⟩
      | .edict meta content key =>
        have hck : RefFree content ∧ RefFree key := by
          cases hrf with | edict _ _ _ h1 h2 => exact ⟨h1, h2⟩
        have hgc := getCapturedValues_ans_congr meta lc hans
        match hg : getCapturedValues meta lc t with
        | .error err =>
          rw [hg] at hgc
          exact ⟨.error err, lc, by simp [outEval, hgc], by simp [outEval, hg]⟩
        | .ok tuples =>
          rw [hg] at hgc
          obtain ⟨r, lc', h1, h2⟩ :=
            ih top reg (.dictItems meta content key tuples [] lc) s t hck hans
          match r with
          | .ok (.val v) =>
            exact ⟨.error .assertionFail, lc', by simp [outEval, hgc, h1], by simp [outEval, hg, h2]⟩
          | .ok (.vals vs) =>
            exact ⟨.error .assertionFail, lc', by simp [outEval, hgc, h1], by simp [outEval, hg, h2]⟩
          | .ok (.pairs l) =>
            exact ⟨.error .assertionFail, lc', by simp [outEval, hgc, h1], by simp [outEval, hg, h2]⟩
          | .ok (.items d) =>
            exact ⟨.ok (.val (.vdict d)), lc', by simp [outEval, hgc, h1], by simp [outEval, hg, h2]⟩
          | .error err =>
            exact ⟨.error err, lc', by simp [outEval, hgc, h1], by simp [outEval, hg, h2]⟩
    | .obj n => exact hrf.elim
    | .args es lc =>
      match es with
      | [] => exact ⟨.ok (.vals []), lc, rfl, rfl⟩
      | e :: rest =>
        have he : RefFree e := hrf e (by simp)
        have hrest : ∀ a ∈ rest, RefFree a := fun a ha => hrf a (by simp [ha])
        obtain ⟨r, lc1, h1, h2⟩ := ih top reg (.expr e lc) s t he hans
        match r with
        | .ok (.val v) =>
          obtain ⟨r2, lc2, h3, h4⟩ := ih top reg (.args rest lc1) s t hrest hans
          match r2 with
          | .ok (.val v2) =>
            exact ⟨.error .assertionFail, lc2, by simp [outEval, h1, h3], by simp [outEval, h2, h4]⟩
          | .ok (.vals vs) =>
            exact ⟨.ok (.vals (v :: vs)), lc2, by simp [outEval, h1, h3], by simp [outEval, h2, h4]⟩
          | .ok (.pairs l) =>
            exact ⟨.error .assertionFail, lc2, by simp [outEval, h1, h3], by simp [outEval, h2, h4]⟩
          | .ok (.items l) =>
            exact ⟨.error .assertionFail, lc2, by simp [outEval, h1, h3], by simp [outEval, h2, h4]⟩
          | .error err =>
            exact ⟨.error err, lc2, by simp [outEval, h1, h3], by simp [outEval, h2, h4]⟩
        | .ok (.vals l) =>
          exact ⟨.error .assertionFail, lc1, by simp [outEval, h1], by simp [outEval, h2]⟩
        | .ok (.pairs l) =>
          exact ⟨.error .assertionFail, lc1, by simp [outEval, h1], by simp [outEval, h2]⟩
        | .ok (.items l) =>
          exact ⟨.error .assertionFail, lc1, by simp [outEval, h1], by simp [outEval, h2]⟩
        | .error err =>
          exact ⟨.error err, lc1, by simp [outEval, h1], by simp [outEval, h2]⟩
    | .subexpr meta e cv lc =>
      have he : RefFree e := hrf
      by_cases hl : meta.captured_variables.length ≠ cv.length
      · exact ⟨.error .assertionFail, lc, by simp [outEval, hl], by simp [outEval, hl]⟩
      · match ha : lcAssignLoop lc
          ((meta.captured_variables.drop meta.fixed_query_variables.length).zip
            (cv.drop meta.fixed_query_variables.length)) with
        | (.error err, lc') =>
          exact ⟨.error err, lc', by simp [outEval, hl, ha], by simp [outEval, hl, ha]⟩
        | (.ok u, lc') =>
          obtain ⟨r, lc'', h1, h2⟩ := ih top reg (.expr e lc') s t he hans
          match r with
          | .ok (.val v) =>
            match hd : lcDeleteLoop lc''
              (meta.captured_variables.drop meta.fixed_query_variables.length) with
            | (.ok u2, lc3) =>
              exact ⟨.ok (.val v), lc3, by simp [outEval, hl, ha, h1, hd], by simp [outEval, hl, ha, h2, hd]⟩
            | (.error err, lc3) =>
              exact ⟨.error err, lc3, by simp [outEval, hl, ha, h1, hd], by simp [outEval, hl, ha, h2, hd]⟩
          | .ok (.vals l) =>
            exact ⟨.error .assertionFail, lc'', by simp [outEval, hl, ha, h1], by simp [outEval, hl, ha, h2]⟩
          | .ok (.pairs l) =>
            exact ⟨.error .assertionFail, lc'', by simp [outEval, hl, ha, h1], by simp [outEval, hl, ha, h2]⟩
          | .ok (.items l) =>
            exact ⟨.error .assertionFail, lc'', by simp [outEval, hl, ha, h1], by simp [outEval, hl, ha, h2]⟩
          | .error err =>
            exact ⟨.error err, lc'', by simp [outEval, hl, ha, h1], by simp [outEval, hl, ha, h2]⟩
    | .elems meta content tuples lc =>
      have hc : RefFree content := hrf
      match tuples with
      | [] => exact ⟨.ok (.vals []), lc, rfl, rfl⟩
      | cv :: rest =>
        obtain ⟨r, lc1, h1, h2⟩ := ih top reg (.subexpr meta content cv lc) s t hc hans
        match r with
        | .ok (.val v) =>
          obtain ⟨r2, lc2, h3, h4⟩ := ih top reg (.elems meta content rest lc1) s t hc hans
          match r2 with
          | .ok (.val v2) =>
            exact ⟨.error .assertionFail, lc2, by simp [outEval, h1, h3], by simp [outEval, h2, h4]⟩
          | .ok (.vals vs) =>
            exact ⟨.ok (.vals (v :: vs)), lc2, by simp [outEval, h1, h3], by simp [outEval, h2, h4]⟩
          | .ok (.pairs l) =>
            exact ⟨.error .assertionFail, lc2, by simp [outEval, h1, h3], by simp [outEval, h2, h4]⟩
          | .ok (.items l) =>
            exact ⟨.error .assertionFail, lc2, by simp [outEval, h1, h3], by simp [outEval, h2, h4]⟩
          | .error err =>
            exact ⟨.error err, lc2, by simp [outEval, h1, h3], by simp [outEval, h2, h4]⟩
        | .ok (.vals l) =>
          exact ⟨.error .assertionFail, lc1, by simp [outEval, h1], by simp [outEval, h2]⟩
        | .ok (.pairs l) =>
          exact ⟨.error .assertionFail, lc1, by simp [outEval, h1], by simp [outEval, h2]⟩
        | .ok (.items l) =>
          exact ⟨.error .assertionFail, lc1, by simp [outEval, h1], by simp [outEval, h2]⟩
        | .error err =>
          exact ⟨.error err, lc1, by simp [outEval, h1], by simp [outEval, h2]⟩
    | .seqPairs meta content pos tuples lc =>
      have hc : RefFree content := hrf
      match tuples with
      | [] => exact ⟨.ok (.pairs []), lc, rfl, rfl⟩
      | cv :: rest =>
        match hi : index_for pos cv with
        | .error err =>
          exact ⟨.error err, lc, by simp [outEval, hi], by simp [outEval, hi]⟩
        | .ok i =>
          obtain ⟨r, lc1, h1, h2⟩ := ih top reg (.subexpr meta content cv lc) s t hc hans
          match r with
          | .ok (.val v) =>
            obtain ⟨r2, lc2, h3, h4⟩ := ih top reg (.seqPairs meta content pos rest lc1) s t hc hans
            match r2 with
            | .ok (.val v2) =>
              exact ⟨.error .assertionFail, lc2, by simp [outEval, hi, h1, h3], by simp [outEval, hi, h2, h4]⟩
            | .ok (.vals l) =>
              exact ⟨.error .assertionFail, lc2, by simp [outEval, hi, h1, h3], by simp [outEval, hi, h2, h4]⟩
            | .ok (.pairs xs) =>
              exact ⟨.ok (.pairs ((i, v) :: xs)), lc2, by simp [outEval, hi, h1, h3], by simp [outEval, hi, h2, h4]⟩
            | .ok (.items l) =>
              exact ⟨.error .assertionFail, lc2, by simp [outEval, hi, h1, h3], by simp [outEval, hi, h2, h4]⟩
            | .error err =>
              exact ⟨.error err, lc2, by simp [outEval, hi, h1, h3], by simp [outEval, hi, h2, h4]⟩
          | .ok (.vals l) =>
            exact ⟨.error .assertionFail, lc1, by simp [outEval, hi, h1], by simp [outEval, hi, h2]⟩
          | .ok (.pairs l) =>
            exact ⟨.error .assertionFail, lc1, by simp [outEval, hi, h1], by simp [outEval, hi, h2]⟩
          | .ok (.items l) =>
            exact ⟨.error .assertionFail, lc1, by simp [outEval, hi, h1], by simp [outEval, hi, h2]⟩
          | .error err =>
            exact ⟨.error err, lc1, by simp [outEval, hi, h1], by simp [outEval, hi, h2]⟩
    | .dictItems meta content key tuples d lc =>
      obtain ⟨hc, hk⟩ := hrf
      match tuples with
      | [] => exact ⟨.ok (.items d), lc, rfl, rfl⟩
      | cv :: rest =>
        obtain ⟨r, lc1, h1, h2⟩ := ih top reg (.subexpr meta key cv lc) s t hk hans
        match r with
        | .ok (.val kv) =>
          by_cases hdup : vdictHasKey (f + 1) d kv = true
          · exact ⟨.error .duplicateKey, lc1, by simp [outEval, h1, hdup], by simp [outEval, h2, hdup]⟩
          · obtain ⟨r2, lc2, h3, h4⟩ := ih top reg (.subexpr meta content cv lc1) s t hc hans
            match r2 with
            | .ok (.val v) =>
              obtain ⟨r3, lc3, h5, h6⟩ :=
                ih top reg (.dictItems meta content key rest (d ++ [(kv, v)]) lc2) s t ⟨hc, hk⟩ hans
              exact ⟨r3, lc3, by simp [outEval, h1, hdup, h3, h5], by simp [outEval, h2, hdup, h4, h6]⟩
            | .ok (.vals l) =>
              exact ⟨.error .assertionFail, lc2, by simp [outEval, h1, hdup, h3], by simp [outEval, h2, hdup, h4]⟩
            | .ok (.pairs l) =>
              exact ⟨.error .assertionFail, lc2, by simp [outEval, h1, hdup, h3], by simp [outEval, h2, hdup, h4]⟩
            | .ok (.items l) =>
              exact ⟨.error .assertionFail, lc2, by simp [outEval, h1, hdup, h3], by simp [outEval, h2, hdup, h4]⟩
            | .error err =>
              exact ⟨.error err, lc2, by simp [outEval, h1, hdup, h3], by simp [outEval, h2, hdup, h4]⟩
        | .ok (.vals l) =>
          exact ⟨.error .assertionFail, lc1, by simp [outEval, h1], by simp [outEval, h2]⟩
        | .ok (.pairs l) =>
          exact ⟨.error .assertionFail, lc1, by simp [outEval, h1], by simp [outEval, h2]⟩
        | .ok (.items l) =>
          exact ⟨.error .assertionFail, lc1, by simp [outEval, h1], by simp [outEval, h2]⟩
        | .error err =>
          exact ⟨.error err, lc1, by simp [outEval, h1], by simp [outEval, h2]⟩

/-! ## C6: the answer set is released while a name is still mid-resolution -/

/-- Toplevel `OUTPUT \x7b x = (&z, set \x7b ... \x7d); z = 42; \x7d`: the
tuple for `x` first dereferences `z`, then evaluates a set expression
reading the auxiliary predicate `aspio__s`. -/
def topC6 : Toplevel :=
  [("x", Expr.object none [.ref "z", .eset ⟨"aspio__s", [], ["X"]⟩ (.evar "X")]),
   ("z", Expr.constInt 42)]

/-- Raw answer set holding one tuple of `aspio__s`. -/
def ansC6 : RawAnswerSet := [("aspio__s", [["a"]])]

/-- The state in which the `get` of `x` fails: `x` is still mid-resolution
(sentinel installed), `z` is resolved, yet the raw answer set is gone. -/
def stC6 : OutState :=
  { objs := [("x", .inProgress), ("z", .resolved (.int 42))], ans := none }

/-- C6: refuted as stated — `get_object` releases the answer set when
`len(self.toplevel) == len(self.objs)`, a count that includes in-progress
sentinels, not only resolved names. Dereferencing `x` on `topC6` first
resolves `z`; at that point `objs` holds `x`'s sentinel plus `z`'s value,
the length test passes, and the raw answer set is deleted while `x` is
still mid-resolution. The set expression evaluated next on behalf of that
same `get` can no longer read the answer set's tuples (AttributeError on
the deleted attribute, embedded as `attributeAnswerSet`), although on an
unreleased state the very same collection read succeeds. -/
theorem C6_release_bug :
    get_object 10 topC6 [] "x" (freshState ansC6) = (.error .attributeAnswerSet, stC6)
    ∧ stC6.ans = none
    ∧ objsLookup stC6.objs "x" = some .inProgress
    ∧ (Toplevel.get topC6 "x").isSome = true
    ∧ getCapturedValues ⟨"aspio__s", [], ["X"]⟩ [] stC6 = .error .attributeAnswerSet
    ∧ getCapturedValues ⟨"aspio__s", [], ["X"]⟩ [] (freshState ansC6) = .ok [["a"]] :=
  ⟨rfl, rfl, rfl, rfl, rfl, rfl⟩

/-! ## C10: a failed evaluation leaves the in-progress sentinel behind -/

/-- Toplevel `OUTPUT \x7b w = dictionary \x7b ... \x7d \x7d` whose dictionary
query `p(X, I)` produces the duplicate key `a`. -/
def topC10 : Toplevel :=
  [("w", Expr.edict ⟨"aspio__d", [], ["X", "I"]⟩ (.evar "I") (.evar "X"))]

/-- Raw answer set with two facts sharing the key constant `a`. -/
def ansC10 : RawAnswerSet := [("aspio__d", [["a", "1"], ["a", "2"]])]

/-- The state after the failed first dereference of `w`: the sentinel is
still installed, the answer set still held. -/
def stC10 : OutState := { objs := [("w", .inProgress)], ans := some ansC10 }

/-- C10: when `get_object` evaluates a fresh name's expression and that
evaluation raises (here: any error `err`), the in-progress sentinel
written before the evaluation is never cleaned up — the returned state
still maps the name to the sentinel — so every subsequent `get` of the
same name raises CircularReferenceError instead of repeating the original
error. Concretely, for a dictionary with duplicate key `a`, the first
`get` of `w` raises DuplicateKeyError and the second raises
CircularReferenceError (a different error). -/
theorem C10_sentinel :
    (∀ (fuel fuel2 : Nat) (top : Toplevel) (reg : Registry) (n : String)
      (st : OutState) (e : Expr) (err : OutErr) (lc2 : LC) (st2 : OutState),
      objsLookup st.objs n = none →
      Toplevel.get top n = some e →
      outEval fuel top reg (.expr e [])
        { st with objs := objsInsert st.objs n .inProgress } = (.error err, lc2, st2) →
      get_object (fuel + 1) top reg n st = (.error err, st2)
      ∧ objsLookup st2.objs n = some .inProgress
      ∧ get_object (fuel2 + 1) top reg n st2 = (.error (.circularRef n), st2))
    ∧ get_object 10 topC10 [] "w" (freshState ansC10) = (.error .duplicateKey, stC10)
    ∧ get_object 10 topC10 [] "w" stC10 = (.error (.circularRef "w"), stC10)
    ∧ (OutErr.circularRef "w") ≠ .duplicateKey := by
  refine ⟨?_, rfl, rfl, by decide⟩
  intro fuel fuel2 top reg n st e err lc2 st2 ha he hr
  have hsent : objsLookup st2.objs n = some .inProgress := by
    have hmono := outEval_inProgress_mono fuel top reg (.expr e [])
      { st with objs := objsInsert st.objs n .inProgress } n
      (by simpa using objsLookup_insert_self st.objs n .inProgress)
    rw [hr] at hmono
    simpa using hmono
  refine ⟨?_, hsent, ?_⟩
  · simp [get_object, outEval, ha, he, hr]
  · simp [get_object, outEval, hsent]

/-- C10 witness: the duplicate-key dictionary scenario run through the
general statement: sentinel retention and the switch from
DuplicateKeyError to CircularReferenceError. -/
theorem C10_sentinel_witness :
    get_object 10 topC10 [] "w" (freshState ansC10) = (.error .duplicateKey, stC10)
    ∧ objsLookup stC10.objs "w" = some .inProgress
    ∧ get_object 8 topC10 [] "w" stC10 = (.error (.circularRef "w"), stC10) :=
  C10_sentinel.1 9 7 topC10 [] "w" (freshState ansC10)
    (Expr.edict ⟨"aspio__d", [], ["X", "I"]⟩ (.evar "I") (.evar "X"))
    .duplicateKey [] stC10 rfl rfl rfl

/-- C5 witness: all four memo transitions exercised on the one-name
toplevel `a = 7` (undefined name `b`, sentinel hit, resolved hit, and a
successful first resolution that releases the answer set). -/
theorem C5_memo_witness :
    get_object 1 [("a", Expr.constInt 7)] [] "b" { objs := [], ans := some [] }
      = (.error (.undefinedName "b"), { objs := [], ans := some [] })
    ∧ get_object 1 [("a", Expr.constInt 7)] [] "a" { objs := [("a", .inProgress)], ans := some [] }
      = (.error (.circularRef "a"), { objs := [("a", .inProgress)], ans := some [] })
    ∧ get_object 1 [("a", Expr.constInt 7)] [] "a"
        { objs := [("a", .resolved (.int 7))], ans := none }
      = (.ok (.int 7), { objs := [("a", .resolved (.int 7))], ans := none })
    ∧ get_object 2 [("a", Expr.constInt 7)] [] "a" { objs := [], ans := some [] }
      = (.ok (.int 7), { objs := [("a", .resolved (.int 7))], ans := none }) := by
  refine ⟨?_, ?_, ?_, ?_⟩
  · exact (C5_memo.1 0 [("a", Expr.constInt 7)] [] "b" { objs := [], ans := some [] }).1 rfl rfl
  · exact (C5_memo.1 0 [("a", Expr.constInt 7)] [] "a"
      { objs := [("a", .inProgress)], ans := some [] }).2.1 rfl
  · exact (C5_memo.1 0 [("a", Expr.constInt 7)] [] "a"
      { objs := [("a", .resolved (.int 7))], ans := none }).2.2.1 (.int 7) rfl
  · have h := (C5_memo.1 1 [("a", Expr.constInt 7)] [] "a"
      { objs := [], ans := some [] }).2.2.2 (.constInt 7) (.int 7) []
      { objs := [("a", .inProgress)], ans := some [] } rfl rfl rfl
    simpa using h

/-! ## C9: what other names survive a failed dereference -/

/-- Toplevel `OUTPUT \x7b x = &w; w = dictionary ...; z = 7; \x7d` whose
dictionary has a duplicate key. -/
def topC9 : Toplevel :=
  [("x", Expr.ref "w"),
   ("w", Expr.edict ⟨"aspio__d", [], ["X", "I"]⟩ (.evar "I") (.evar "X")),
   ("z", Expr.constInt 7)]

/-- Raw answer set for `topC9`: two `aspio__d` facts sharing key `a`. -/
def ansC9 : RawAnswerSet := [("aspio__d", [["a", "1"], ["a", "2"]])]

/-- The state after the failed dereference of `x` on `topC9`: `x` and `w`
are both stuck at the in-progress sentinel. -/
def stC9A : OutState :=
  { objs := [("x", .inProgress), ("w", .inProgress)], ans := some ansC9 }

/-- C9, counterexample to "every other top-level name remains resolvable
afterwards and yields the same value it would have yielded had the
failing dereference never happened": dereferencing `x` on `topC9` raises
DuplicateKeyError (from inside `w`'s dictionary), leaving `w` — a
different top-level name — at the in-progress sentinel; dereferencing `w`
afterwards raises CircularReferenceError, whereas had `x`'s dereference
never happened it would have raised DuplicateKeyError: the outcome for
`w` changes. -/
theorem C9_counterexample :
    get_object 10 topC9 [] "x" (freshState ansC9) = (.error .duplicateKey, stC9A)
    ∧ get_object 10 topC9 [] "w" stC9A = (.error (.circularRef "w"), stC9A)
    ∧ (get_object 10 topC9 [] "w" (freshState ansC9)).1 = .error .duplicateKey
    ∧ (Except.error (OutErr.circularRef "w") : Except OutErr Value) ≠ .error .duplicateKey := by
  refine ⟨rfl, rfl, rfl, ?_⟩
  intro h
  injection h with h1
  exact absurd h1 (by decide)

/-- C9 (amended): an output-time error is fatal only for the names it
leaves mid-resolution. (1) A name whose memo entry is RESOLVED remains
resolvable and yields its memoised value, whatever else has happened.
(2) A name left at the IN_PROGRESS sentinel raises CircularReferenceError
on every later `get` — for such a name the failing dereference is not
without effect. (3) A name untouched by the failure (no memo entry) whose
expression contains no references yields the same outcome as on a fresh
Result carrying the same raw answer set. Concretely on `topC9` after the
failed dereference of `x`: the untouched `z` still resolves to 7 exactly
as it would have fresh, while the entangled `w` now raises
CircularReferenceError instead of DuplicateKeyError. -/
theorem C9_resolvable :
    (∀ (fuel : Nat) (top : Toplevel) (reg : Registry) (n : String) (st : OutState) (v : Value),
      objsLookup st.objs n = some (.resolved v) →
      get_object (fuel + 1) top reg n st = (.ok v, st))
    ∧ (∀ (fuel : Nat) (top : Toplevel) (reg : Registry) (n : String) (st : OutState),
      objsLookup st.objs n = some .inProgress →
      get_object (fuel + 1) top reg n st = (.error (.circularRef n), st))
    ∧ (∀ (fuel : Nat) (top : Toplevel) (reg : Registry) (n : String) (st : OutState)
        (a : RawAnswerSet) (e : Expr),
      objsLookup st.objs n = none → Toplevel.get top n = some e → RefFree e →
      st.ans = some a →
      (get_object (fuel + 1) top reg n st).1 = (get_object (fuel + 1) top reg n (freshState a)).1)
    ∧ (get_object 10 topC9 [] "z" stC9A).1 = .ok (.int 7)
    ∧ (get_object 10 topC9 [] "z" (freshState ansC9)).1 = .ok (.int 7)
    ∧ get_object 10 topC9 [] "w" stC9A = (.error (.circularRef "w"), stC9A)
    ∧ (get_object 10 topC9 [] "w" (freshState ansC9)).1 = .error .duplicateKey := by
  refine ⟨?_, ?_, ?_, rfl, rfl, rfl, rfl⟩
  · intro fuel top reg n st v hc
    simp [get_object, outEval, hc]
  · intro fuel top reg n st hb
    simp [get_object, outEval, hb]
  · intro fuel top reg n st a e ha he hrf hans
    obtain ⟨r, lc', h1, h2⟩ := outEval_refFree fuel top reg (.expr e [])
      { st with objs := objsInsert st.objs n .inProgress }
      { objs := [(n, .inProgress)], ans := some a }
      hrf (by simpa using hans)
    match r with
    | .ok (.val v) =>
      simp [get_object, outEval, ha, he, h1, h2, freshState, objsInsert, objsLookup]
    | .ok (.vals l) =>
      simp [get_object, outEval, ha, he, h1, h2, freshState, objsInsert, objsLookup]
    | .ok (.pairs l) =>
      simp [get_object, outEval, ha, he, h1, h2, freshState, objsInsert, objsLookup]
    | .ok (.items l) =>
      simp [get_object, outEval, ha, he, h1, h2, freshState, objsInsert, objsLookup]
    | .error err =>
      simp [get_object, outEval, ha, he, h1, h2, freshState, objsInsert, objsLookup]

/-- C9 witness: the three general parts applied on `topC9`: the resolved
`z` keeps its value, the sentinel-stuck `w` raises CircularReferenceError,
and the untouched ref-free `z` gets the same outcome on the failed state
as on a fresh Result. -/
theorem C9_resolvable_witness :
    get_object 3 topC9 [] "z"
      { objs := [("z", .resolved (.int 7))], ans := some ansC9 }
      = (.ok (.int 7), { objs := [("z", .resolved (.int 7))], ans := some ansC9 })
    ∧ get_object 3 topC9 [] "w" stC9A = (.error (.circularRef "w"), stC9A)
    ∧ (get_object 3 topC9 [] "z" stC9A).1 = (get_object 3 topC9 [] "z" (freshState ansC9)).1 := by
  refine ⟨?_, ?_, ?_⟩
  · exact C9_resolvable.1 2 topC9 [] "z"
      { objs := [("z", .resolved (.int 7))], ans := some ansC9 } (.int 7) rfl
  · exact C9_resolvable.2.1 2 topC9 [] "w" stC9A rfl
  · exact C9_resolvable.2.2.1 2 topC9 [] "z" stC9A ansC9 (.constInt 7) rfl rfl
      (RefFree.constInt 7) rfl

/-! ## C4: ExprSequence.evaluate -/

/-- Metadata of the sequence node `sequence \x7b query: p(X,I); content: X;
index: I \x7d`: auxiliary predicate `aspio__1`, no fixed query variables,
captured variables `X` and `I`. -/
def meta4 : CollMeta := ⟨"aspio__1", [], ["X", "I"]⟩

theorem C4_subexpr (x i : String) (f : Nat) (top : Toplevel) (reg : Registry) (st : OutState) :
    outEval (f + 2) top reg (.subexpr meta4 (.evar "X") [x, i] []) st
      = (.ok (.val (.str x)), [], st) := by
  simp [outEval, meta4, lcAssignLoop, LC.has, LC.get, LC.insert, lcDeleteLoop, LC.remove]

theorem C4_index_for (x i : String) (iv : Int) (h : pyInt i = some iv) :
    index_for 1 [x, i] = .ok iv := by
  simp only [index_for, List.get?]
  rw [exc_bind_ok]
  simp [h]

theorem C4_seqPairs :
    ∀ (ts : List (String × String × Int)) (f : Nat) (top : Toplevel) (reg : Registry)
      (st : OutState),
      (∀ t ∈ ts, pyInt t.2.1 = some t.2.2) →
      outEval (ts.length + (f + 2)) top reg
        (.seqPairs meta4 (.evar "X") 1 (ts.map fun t => [t.1, t.2.1]) []) st
        = (.ok (.pairs (ts.map fun t => (t.2.2, .str t.1))), [], st) := by
  intro ts
  induction ts with
  | nil =>
    intro f top reg st _
    simp [outEval]
  | cons t rest ih =>
    intro f top reg st hpy
    obtain ⟨x, i, iv⟩ := t
    have hpy1 : pyInt i = some iv := hpy (x, i, iv) (by simp)
    have hidx := C4_index_for x i iv hpy1
    have hsub := C4_subexpr x i (rest.length + f) top reg st
    have hrec : outEval (rest.length + f + 2) top reg
        (.seqPairs meta4 (.evar "X") 1 (rest.map fun t => [t.1, t.2.1]) []) st
        = (.ok (.pairs (rest.map fun t => (t.2.2, .str t.1))), [], st) := by
      rw [show rest.length + f + 2 = rest.length + (f + 2) from by omega]
      exact ih f top reg st (fun t ht => hpy t (by simp [ht]))
    simp only [List.map_cons, List.length_cons]
    rw [show rest.length + 1 + (f + 2) = (rest.length + f + 2) + 1 from by omega]
    generalize hF : rest.length + f + 2 = F
    rw [hF] at hsub hrec
    simp only [outEval, hidx]
    rw [hsub]
    simp only []
    rw [hrec]

theorem filterCaptured_nil (lc : LC) :
    ∀ ts : List (List String), filterCaptured [] lc ts = .ok ts := by
  intro ts
  induction ts with
  | nil => rfl
  | cons cv rest ih =>
    simp only [filterCaptured, matchesFixed, exc_bind_ok, ih]
    rfl

theorem C4_indexValues :
    ∀ (ts : List (String × String × Int)),
      (∀ t ∈ ts, pyInt t.2.1 = some t.2.2) →
      indexValues 1 (ts.map fun t => [t.1, t.2.1]) = .ok (ts.map fun t => t.2.2) := by
  intro ts
  induction ts with
  | nil => intro _; rfl
  | cons t rest ih =>
    intro hpy
    obtain ⟨x, i, iv⟩ := t
    simp only [List.map_cons, indexValues,
      C4_index_for x i iv (hpy (x, i, iv) (by simp)), exc_bind_ok,
      ih (fun t ht => hpy t (by simp [ht])), exc_bind_ok]

theorem C4_eseq_ok :
    ∀ (ts : List (String × String × Int)) (f : Nat) (top : Toplevel) (reg : Registry),
      (∀ t ∈ ts, pyInt t.2.1 = some t.2.2) →
      sortInts (ts.map fun t => t.2.2) = rangeInts ts.length →
      outEval (ts.length + f + 3) top reg
        (.expr (.eseq meta4 (.evar "X") "I") [])
        (freshState [("aspio__1", ts.map fun t => [t.1, t.2.1])])
        = (.ok (.val (.vseq ((sortPairs (ts.map fun t => (t.2.2, .str t.1))).map Prod.snd))),
           [], freshState [("aspio__1", ts.map fun t => [t.1, t.2.1])]) := by
  intro ts f top reg hpy hsort
  have hg : getCapturedValues meta4 []
      (freshState [("aspio__1", ts.map fun t => [t.1, t.2.1])])
      = .ok (ts.map fun t => [t.1, t.2.1]) := by
    simp [getCapturedValues, freshState, meta4, RawAnswerSet.tuplesOf, filterCaptured_nil]
  have hiv := C4_indexValues ts hpy
  have hrec : outEval (ts.length + f + 2) top reg
      (.seqPairs meta4 (.evar "X") 1 (ts.map fun t => [t.1, t.2.1]) [])
      (freshState [("aspio__1", ts.map fun t => [t.1, t.2.1])])
      = (.ok (.pairs (ts.map fun t => (t.2.2, .str t.1))), [],
         freshState [("aspio__1", ts.map fun t => [t.1, t.2.1])]) := by
    rw [show ts.length + f + 2 = ts.length + (f + 2) from by omega]
    exact C4_seqPairs ts f top reg _ hpy
  have hlen : (ts.map fun t => [t.1, t.2.1]).length = ts.length := by simp
  rw [show ts.length + f + 3 = (ts.length + f + 2) + 1 from by omega]
  generalize hF : ts.length + f + 2 = F
  rw [hF] at hrec
  simp only [outEval, hg, hiv]
  rw [show listIdxOf "I" meta4.captured_variables = some 1 from rfl]
  simp only [hlen]
  rw [hiv]
  simp [hsort, hrec]

theorem C4_eseq_fail :
    ∀ (tuples : List (List String)) (f : Nat) (top : Toplevel) (reg : Registry),
      (∀ err, indexValues 1 tuples = .error err →
        outEval (f + 1) top reg (.expr (.eseq meta4 (.evar "X") "I") [])
          (freshState [("aspio__1", tuples)])
          = (.error err, [], freshState [("aspio__1", tuples)]))
      ∧ (∀ idxs, indexValues 1 tuples = .ok idxs →
          ¬ sortInts idxs = rangeInts tuples.length →
        outEval (f + 1) top reg (.expr (.eseq meta4 (.evar "X") "I") [])
          (freshState [("aspio__1", tuples)])
          = (.error .invalidIndices, [], freshState [("aspio__1", tuples)])) := by
  intro tuples f top reg
  have hg : getCapturedValues meta4 [] (freshState [("aspio__1", tuples)])
      = .ok tuples := by
    simp [getCapturedValues, freshState, meta4, RawAnswerSet.tuplesOf, filterCaptured_nil]
  constructor
  · intro err hiv
    simp only [outEval, hg]
    rw [show listIdxOf "I" meta4.captured_variables = some 1 from rfl]
    simp only []
    rw [hiv]
  · intro idxs hiv hs
    simp only [outEval, hg]
    rw [show listIdxOf "I" meta4.captured_variables = some 1 from rfl]
    simp only []
    rw [hiv]
    simp [hs]

/-- Toplevel `OUTPUT \x7b s = sequence \x7b query: p(X,I); content: X;
index: I \x7d \x7d`. -/
def top4 : Toplevel := [("s", Expr.eseq meta4 (.evar "X") "I")]

/-- The raw answer set of `p(abc,1). p(def,0). p(xyz,2).` seen through
the rewritten auxiliary predicate. -/
def ans4 : RawAnswerSet := [("aspio__1", [["abc", "1"], ["def", "0"], ["xyz", "2"]])]

/-- C4: `ExprSequence.evaluate` (i) on index values forming exactly
`\x7b0..n-1\x7d` returns the content values ordered by index (the pairs
`(index, content)` sorted by index, contents projected); (ii) a failure
while converting an index with `int(...)` (missing column or non-integer
text) aborts with that error — non-integer text gives
InvalidIndicesError; (iii) index values whose sort is not `[0..n-1]`
(missing or duplicate indices) give InvalidIndicesError. Concretely, for
`p(abc,1). p(def,0). p(xyz,2).` and
`sequence \x7b query: p(X,I); content: X; index: I \x7d` the result is
`["def", "abc", "xyz"]`, while duplicate indices (`0,0`), missing
indices (`0,2`) and a non-integer index (`zero`) each raise
InvalidIndicesError. -/
theorem C4_sequence :
    (∀ (ts : List (String × String × Int)) (f : Nat) (top : Toplevel) (reg : Registry),
      (∀ t ∈ ts, pyInt t.2.1 = some t.2.2) →
      sortInts (ts.map fun t => t.2.2) = rangeInts ts.length →
      outEval (ts.length + f + 3) top reg
        (.expr (.eseq meta4 (.evar "X") "I") [])
        (freshState [("aspio__1", ts.map fun t => [t.1, t.2.1])])
        = (.ok (.val (.vseq ((sortPairs (ts.map fun t => (t.2.2, .str t.1))).map Prod.snd))),
           [], freshState [("aspio__1", ts.map fun t => [t.1, t.2.1])]))
    ∧ (∀ (tuples : List (List String)) (f : Nat) (top : Toplevel) (reg : Registry)
        (err : OutErr), indexValues 1 tuples = .error err →
        outEval (f + 1) top reg (.expr (.eseq meta4 (.evar "X") "I") [])
          (freshState [("aspio__1", tuples)])
          = (.error err, [], freshState [("aspio__1", tuples)]))
    ∧ (∀ (tuples : List (List String)) (f : Nat) (top : Toplevel) (reg : Registry)
        (idxs : List Int), indexValues 1 tuples = .ok idxs →
        ¬ sortInts idxs = rangeInts tuples.length →
        outEval (f + 1) top reg (.expr (.eseq meta4 (.evar "X") "I") [])
          (freshState [("aspio__1", tuples)])
          = (.error .invalidIndices, [], freshState [("aspio__1", tuples)]))
    ∧ get_object 10 top4 [] "s" (freshState ans4)
      = (.ok (.vseq [.str "def", .str "abc", .str "xyz"]),
         { objs := [("s", .resolved (.vseq [.str "def", .str "abc", .str "xyz"]))],
           ans := none })
    ∧ (get_object 10 top4 [] "s" (freshState [("aspio__1", [["a", "0"], ["b", "0"]])])).1
      = .error .invalidIndices
    ∧ (get_object 10 top4 [] "s" (freshState [("aspio__1", [["a", "0"], ["b", "2"]])])).1
      = .error .invalidIndices
    ∧ (get_object 10 top4 [] "s" (freshState [("aspio__1", [["a", "zero"], ["b", "1"]])])).1
      = .error .invalidIndices :=
  ⟨C4_eseq_ok,
   fun tuples f top reg => (C4_eseq_fail tuples f top reg).1,
   fun tuples f top reg => (C4_eseq_fail tuples f top reg).2,
   rfl, rfl, rfl, rfl⟩

/-- C4 witness: the three general parts instantiated on the example data
of the claim: the permutation `1,0,2` succeeds and orders the contents,
a non-integer index errors, and the duplicate index multiset `0,0` fails
the range test. -/
theorem C4_sequence_witness :
    outEval 6 [] [] (.expr (.eseq meta4 (.evar "X") "I") [])
      (freshState [("aspio__1", [["abc", "1"], ["def", "0"], ["xyz", "2"]])])
      = (.ok (.val (.vseq [.str "def", .str "abc", .str "xyz"])), [],
         freshState [("aspio__1", [["abc", "1"], ["def", "0"], ["xyz", "2"]])])
    ∧ outEval 1 [] [] (.expr (.eseq meta4 (.evar "X") "I") [])
      (freshState [("aspio__1", [["a", "zero"], ["b", "1"]])])
      = (.error .invalidIndices, [], freshState [("aspio__1", [["a", "zero"], ["b", "1"]])])
    ∧ outEval 1 [] [] (.expr (.eseq meta4 (.evar "X") "I") [])
      (freshState [("aspio__1", [["a", "0"], ["b", "0"]])])
      = (.error .invalidIndices, [], freshState [("aspio__1", [["a", "0"], ["b", "0"]])]) := by
  refine ⟨?_, ?_, ?_⟩
  · exact C4_sequence.1 [("abc", "1", 1), ("def", "0", 0), ("xyz", "2", 2)] 0 [] []
      (by decide) (by decide)
  · exact C4_sequence.2.1 [["a", "zero"], ["b", "1"]] 0 [] [] .invalidIndices rfl
  · exact C4_sequence.2.2.1 [["a", "0"], ["b", "0"]] 0 [] [] [0, 0] rfl (by decide)

/-! ## C7: the LocalContext stack discipline -/

/-- Toplevel whose set expression's content is a reference to an
undefined name, so the content evaluation raises mid-subexpression. -/
def topC7 : Toplevel := [("s", Expr.eset ⟨"aspio__s", [], ["X"]⟩ (.ref "nope"))]

/-- Raw answer set giving the set expression one tuple, binding `X`
to `a` during the subexpression evaluation. -/
def ansC7 : RawAnswerSet := [("aspio__s", [["a"]])]

/-- C7, counterexample to "including when the subexpression's evaluation
terminates by raising an output-time error": `assign_variables` is a
generator-based context manager with no `try`/`finally` around its
`yield`, so when the subexpression raises, the popping loop never runs.
Evaluating the set of `topC7`, the tuple binds `X := a`, the content
`&nope` raises UndefinedNameError, and the binding of `X` is still in
the LocalContext when the error propagates out of the whole collection
evaluation. -/
theorem C7_counterexample :
    outEval 10 topC7 [] (.expr (Expr.eset ⟨"aspio__s", [], ["X"]⟩ (.ref "nope")) [])
      (freshState ansC7)
      = (.error (.undefinedName "nope"), [("X", "a")], freshState ansC7)
    ∧ ([("X", "a")] : LC) ≠ [] := by
  refine ⟨rfl, ?_⟩
  intro h
  cases h

/-- C7 (amended): on every path that terminates normally the
LocalContext follows the claimed stack discipline: (1) the pop loop of
`assign_variables` removes exactly the set of names pushed by a
successful push loop and restores the context to its pre-push value;
(2) every evaluation that returns a value hands back the LocalContext it
was entered with, so no binding survives into a sibling evaluation.
(3) When a subexpression raises, however, the pushed bindings are NOT
popped (no `try`/`finally` in `assign_variables`): the error path of
`topC7` leaves `X` bound. -/
theorem C7_stack :
    (∀ (pairs : List (String × String)) (lc : List (String × String)) (u : Unit)
       (lc₂ : List (String × String)),
      lcAssignLoop lc pairs = (.ok u, lc₂) →
      lcDeleteLoop lc₂ (pairs.map Prod.fst) = (.ok (), lc))
    ∧ (∀ (fuel : Nat) (top : Toplevel) (reg : Registry) (req : EvalReq) (st : OutState)
       (out : EvalOut) (lc' : LC) (st' : OutState),
      outEval fuel top reg req st = (.ok out, lc', st') → lc' = req.lcOf)
    ∧ outEval 10 topC7 [] (.expr (Expr.eset ⟨"aspio__s", [], ["X"]⟩ (.ref "nope")) [])
        (freshState ansC7)
        = (.error (.undefinedName "nope"), [("X", "a")], freshState ansC7) :=
  ⟨lcAssign_then_delete, outEval_lc_restore, rfl⟩

/-- C7 witness: a push of `X := a` onto the empty context is popped back
to the empty context, and a successful subexpression evaluation (binding
`X`, evaluating the variable, unbinding) returns the empty context it
started from. -/
theorem C7_stack_witness :
    lcDeleteLoop [("X", "a")] ["X"] = (.ok (), [])
    ∧ ([] : LC) = EvalReq.lcOf (.subexpr ⟨"aspio__s", [], ["X"]⟩ (.evar "X") ["a"] []) := by
  constructor
  · exact C7_stack.1 [("X", "a")] [] () [("X", "a")] rfl
  · exact C7_stack.2.1 3 topC7 [] (.subexpr ⟨"aspio__s", [], ["X"]⟩ (.evar "X") ["a"] [])
      (freshState ansC7) (.val (.str "a")) [] (freshState ansC7) rfl

/-! ## C8: DlvhexLineReader.__close -/

/-- The observable state of the solver subprocess at close time:
whether `process.poll()` is `None` (still running) and the return code
it has (or will end up with). -/
structure Proc where
  alive : Bool
  returncode : Int
deriving DecidableEq, Repr

/-- What the environment does when the driver initiates termination:
the return code the process ends with after the
`terminate() / wait(0.001) / kill() / wait()` sequence, and the stderr
text captured by the `StreamCaptureThread`. -/
structure CloseEnv where
  rcAfterTerminate : Int
  stderrData : String
deriving DecidableEq, Repr

/-- The return codes `(2, -signal.SIGTERM, -signal.SIGKILL,
-signal.SIGABRT)` = `(2, -15, -9, -6)` that `__close` treats as benign
after a driver-initiated termination. -/
def benignRC (rc : Int) : Bool :=
  rc = 2 ∨ rc = -15 ∨ rc = -9 ∨ rc = -6

/-- Embeds `DlvhexLineReader.__close`: if the process is still running
it is terminated (resetting a benign return code to 0 — only in this
branch); then streams are closed and, if the final return code is
nonzero, a `SolverSubprocessError` carrying the return code and the
full captured stderr text is raised after resetting the return code to
0 ("make sure we only raise an error once").  The raised error is the
first component; the process state after the call is the second. -/
def dlvhexClose (p : Proc) (env : CloseEnv) : Option (Int × String) × Proc :=
  let p1 : Proc :=
    if p.alive then
      if benignRC env.rcAfterTerminate then { alive := false, returncode := 0 }
      else { alive := false, returncode := env.rcAfterTerminate }
    else p
  if p1.returncode ≠ 0 then
    (some (p1.returncode, env.stderrData), { p1 with returncode := 0 })
  else
    (none, p1)

/-- A `DlvhexLineReader` together with its `weakref.finalize` guard:
`close()` invokes the finalizer, which runs `__close` at most once. -/
structure Reader where
  proc : Proc
  finalized : Bool
deriving DecidableEq, Repr

/-- Embeds `DlvhexLineReader.close` via the finalizer: a second call is
a no-op. -/
def readerClose (r : Reader) (env : CloseEnv) : Option (Int × String) × Reader :=
  if r.finalized then (none, r)
  else
    let (e, p') := dlvhexClose r.proc env
    (e, { proc := p', finalized := true })

/-- C8: during driver-initiated termination (the process still running
when `__close` starts), the outcomes return code 2, death by SIGTERM
(-15), SIGKILL (-9) and SIGABRT (-6) are not errors; any other nonzero
return code yields exactly one error carrying the return code and the
full captured stderr text (and resets the code so closing again is
silent); a repeated close — whether through the finalizer guard or
through the reset return code — never raises a second time; and the
benign codes are excused only in the driver-initiated branch: a process
that already exited with code 2 on its own is reported as an error. -/
theorem C8_close :
    (∀ (p : Proc) (env : CloseEnv), p.alive = true →
      benignRC env.rcAfterTerminate = true →
      dlvhexClose p env = (none, { alive := false, returncode := 0 }))
    ∧ (∀ (p : Proc) (env : CloseEnv), p.alive = true →
      benignRC env.rcAfterTerminate = false → env.rcAfterTerminate ≠ 0 →
      dlvhexClose p env
        = (some (env.rcAfterTerminate, env.stderrData), { alive := false, returncode := 0 }))
    ∧ (∀ (p : Proc) (env env2 : CloseEnv),
      dlvhexClose (dlvhexClose p env).2 env2 = (none, (dlvhexClose p env).2))
    ∧ (∀ (r : Reader) (env env2 : CloseEnv),
      (readerClose ((readerClose r env).2) env2).1 = none)
    ∧ (∀ (p : Proc) (env : CloseEnv), p.alive = false → p.returncode = 2 →
      (dlvhexClose p env).1 = some (2, env.stderrData)) := by
  refine ⟨?_, ?_, ?_, ?_, ?_⟩
  · intro p env ha hb
    simp [dlvhexClose, ha, hb]
  · intro p env ha hb hz
    simp [dlvhexClose, ha, hb, hz]
  · intro p env env2
    by_cases ha : p.alive = true
    · by_cases hb : benignRC env.rcAfterTerminate = true
      · simp [dlvhexClose, ha, hb]
      · by_cases hz2 : env.rcAfterTerminate = 0
        · simp [dlvhexClose, ha, hb, hz2]
        · simp [dlvhexClose, ha, hb, hz2]
    · have ha2 : p.alive = false := by simpa using ha
      by_cases hz : p.returncode = 0
      · simp [dlvhexClose, ha2, hz]
      · simp [dlvhexClose, ha2, hz]
  · intro r env env2
    by_cases hf : r.finalized = true
    · simp [readerClose, hf]
    · have hf2 : r.finalized = false := by simpa using hf
      simp [readerClose, hf2]
  · intro p env ha hrc
    simp [dlvhexClose, ha, hrc]

/-- C8 witness: a running process killed with SIGTERM closes silently; a
running process that dies with code 3 raises once, carrying the stderr
text, and a repeated close of the same reader is silent; a process that
exited with code 2 on its own is an error. -/
theorem C8_close_witness :
    dlvhexClose ⟨true, 7⟩ ⟨-15, "got termination signal 15"⟩ = (none, ⟨false, 0⟩)
    ∧ dlvhexClose ⟨true, 7⟩ ⟨3, "plugin error"⟩ = (some (3, "plugin error"), ⟨false, 0⟩)
    ∧ dlvhexClose (dlvhexClose ⟨true, 7⟩ ⟨3, "plugin error"⟩).2 ⟨3, "plugin error"⟩
      = (none, (dlvhexClose ⟨true, 7⟩ ⟨3, "plugin error"⟩).2)
    ∧ (readerClose ((readerClose ⟨⟨true, 7⟩, false⟩ ⟨3, "plugin error"⟩).2)
        ⟨3, "plugin error"⟩).1 = none
    ∧ (dlvhexClose ⟨false, 2⟩ ⟨0, "self exit"⟩).1 = some (2, "self exit") := by
  refine ⟨?_, ?_, ?_, ?_, ?_⟩
  · exact C8_close.1 ⟨true, 7⟩ ⟨-15, "got termination signal 15"⟩ rfl (by decide)
  · exact C8_close.2.1 ⟨true, 7⟩ ⟨3, "plugin error"⟩ rfl (by decide) (by decide)
  · exact C8_close.2.2.1 ⟨true, 7⟩ ⟨3, "plugin error"⟩ ⟨3, "plugin error"⟩
  · exact C8_close.2.2.2.1 ⟨⟨true, 7⟩, false⟩ ⟨3, "plugin error"⟩ ⟨3, "plugin error"⟩
  · exact C8_close.2.2.2.2 ⟨false, 2⟩ ⟨0, "self exit"⟩ rfl rfl

end Aspio
